import Mathlib

/-!
# Verification of the flyermaker effects pipeline against its specification

Shallow embedding of the effects/compositing core of the `flyermaker`
repository: the document/layer model (`src/model/Document.ts`), the effect
stack cache key (`src/effects/EffectStack.ts`), the per-effect GLSL pass
definitions (`src/effects/blur.ts`, `bloom.ts`, `halation.ts`,
`colorGrading.ts`, `iridescence.ts`), and the two in-tree renderers
(`src/effects/EffectRenderer.ts`, `src/effects/WebGLEffectsPipeline.ts`).

GLSL float math is modelled over `ℝ`; images are pixel grids with
edge-clamped sampling; shaders become per-pixel functions.
-/

noncomputable section

open Finset

/-! ## GLSL scalar helpers -/

/-- GLSL `clamp(x, lo, hi) = min(max(x, lo), hi)`. -/
def clampR (x lo hi : ℝ) : ℝ := min (max x lo) hi

/-- GLSL linear `mix(a, b, t) = a*(1-t) + b*t`. -/
def mixR (a b t : ℝ) : ℝ := a * (1 - t) + b * t

/-- GLSL `fract(x) = x - floor(x)`. -/
def fractR (x : ℝ) : ℝ := Int.fract x

/-- GLSL `smoothstep(e0, e1, x)`: Hermite interpolation of the clamped ramp. -/
def smoothstepR (e0 e1 x : ℝ) : ℝ :=
  (fun t => t * t * (3 - 2 * t)) (clampR ((x - e0) / (e1 - e0)) 0 1)

/-- Rec.709 luma `0.2126 R + 0.7152 G + 0.0722 B`, used by every shader. -/
def lumaR (r g b : ℝ) : ℝ := 0.2126 * r + 0.7152 * g + 0.0722 * b

/-! ## Pixels and images -/

/-- One RGBA sample, channels as exact reals (GLSL floats). -/
structure Px where
  r : ℝ
  g : ℝ
  b : ℝ
  a : ℝ

namespace Px

/-- Componentwise addition (GLSL `vec4 + vec4`). -/
def add (p q : Px) : Px := ⟨p.r + q.r, p.g + q.g, p.b + q.b, p.a + q.a⟩

/-- Scalar multiple of all four components (GLSL `vec4 * float`). -/
def smul (c : ℝ) (p : Px) : Px := ⟨c * p.r, c * p.g, c * p.b, c * p.a⟩

/-- The all-zero sample, `vec4(0.0)`. -/
def zero : Px := ⟨0, 0, 0, 0⟩

end Px

/-- An image: a width, a height and pixel contents indexed from `(0,0)`. -/
structure Img where
  width : ℕ
  height : ℕ
  pix : ℕ → ℕ → Px

/-- Clamp an integer coordinate into `[0, n-1]` (CLAMP_TO_EDGE sampling). -/
def clampIdx (n : ℕ) (i : ℤ) : ℕ := (max 0 (min i ((n : ℤ) - 1))).toNat

/-- Edge-clamped texture fetch at integer pixel coordinates. -/
def sampleImg (img : Img) (x y : ℤ) : Px :=
  img.pix (clampIdx img.width x) (clampIdx img.height y)

/-- Apply a per-pixel shader (no neighbourhood reads) to a whole image. -/
def mapImg (f : Px → Px) (img : Img) : Img :=
  ⟨img.width, img.height, fun x y => f (img.pix x y)⟩

/-! ## Document model (`src/model/Document.ts`)

`DocumentModel` holds an ordered layer list and the id of the active layer.
Only the field the invariant mentions is embedded from `Layer`: its id. -/

/-- A layer as far as the document operations are concerned: its id. -/
structure LayerM where
  id : String

/-- `DocumentModel` state: ordered layers plus `activeLayerId`. -/
structure DocumentModel where
  layers : List LayerM
  activeLayerId : Option String

namespace DocumentModel

/-- The empty document: no layers, no active layer. -/
def empty : DocumentModel := ⟨[], none⟩

/-- `addLayer`: push the layer and make it active. -/
def addLayer (d : DocumentModel) (l : LayerM) : DocumentModel :=
  ⟨d.layers ++ [l], some l.id⟩

/-- `deleteLayer`: drop all layers with the id; if the active layer was
deleted, fall back to the last remaining layer (or none). -/
def deleteLayer (d : DocumentModel) (i : String) : DocumentModel :=
  ⟨d.layers.filter (fun l => l.id ≠ i),
    if d.activeLayerId = some i then
      ((d.layers.filter (fun l => l.id ≠ i)).getLast?).map (fun l => l.id)
    else d.activeLayerId⟩

/-- `moveLayer`: splice the layer out and reinsert it at `toIndex`; a miss
or an out-of-range index leaves the document unchanged. -/
def moveLayer (d : DocumentModel) (i : String) (toIndex : ℕ) : DocumentModel :=
  match d.layers.findIdx? (fun l => l.id = i) with
  | none => d
  | some fromIndex =>
      if toIndex < d.layers.length then
        ⟨(d.layers.eraseIdx fromIndex).take toIndex ++ [d.layers.getD fromIndex ⟨""⟩] ++
          (d.layers.eraseIdx fromIndex).drop toIndex, d.activeLayerId⟩
      else d

/-- One UI-level document operation. -/
inductive Op where
  | add (l : LayerM)
  | delete (i : String)
  | move (i : String) (toIndex : ℕ)

/-- Apply one operation. -/
def applyOp (d : DocumentModel) : Op → DocumentModel
  | .add l => d.addLayer l
  | .delete i => d.deleteLayer i
  | .move i t => d.moveLayer i t

/-- Apply a sequence of operations starting from a document. -/
def run (d : DocumentModel) (ops : List Op) : DocumentModel :=
  ops.foldl applyOp d

/-- The spec's invariant: a non-null `activeLayerId` names a present layer. -/
def ActiveValid (d : DocumentModel) : Prop :=
  ∀ i, d.activeLayerId = some i → ∃ l ∈ d.layers, l.id = i

end DocumentModel

/-- A successful `findIdx?` (with start accumulator `n`) stays below
`n` plus the list length. -/
theorem findIdxQ_some_lt_aux {α : Type} (p : α → Bool) :
    ∀ (l : List α) (n i : ℕ), List.findIdx? p l n = some i → i < n + l.length := by
  intro l
  induction l with
  | nil => intro n i h; simp [List.findIdx?] at h
  | cons a t ih =>
      intro n i h
      rw [List.findIdx?_cons] at h
      have hlen : (a :: t).length = t.length + 1 := List.length_cons a t
      by_cases hp : p a
      · rw [if_pos hp] at h
        have hi : n = i := by simpa using h
        omega
      · rw [if_neg hp] at h
        have := ih (n + 1) i h
        omega

/-- A successful `findIdx?` returns an index inside the list. -/
theorem findIdxQ_some_lt {α : Type} (p : α → Bool) (l : List α) (i : ℕ)
    (h : l.findIdx? p = some i) : i < l.length := by
  have := findIdxQ_some_lt_aux p l 0 i h
  omega

/-- `getLast?` of a list, when defined, is a member. -/
theorem getLastQ_mem {α : Type} : ∀ (l : List α) (a : α), l.getLast? = some a → a ∈ l := by
  intro l
  induction l with
  | nil => intro a h; simp at h
  | cons x t ih =>
      intro a h
      cases t with
      | nil => simp_all
      | cons y u =>
          rw [List.getLast?_cons_cons] at h
          exact List.mem_cons_of_mem _ (ih a h)

/-- Membership survives `moveLayer`'s splice: every element of the original
layer list is present in the rearranged list. -/
theorem mem_moveLayer_of_mem (d : DocumentModel) (i : String) (t : ℕ)
    (l : LayerM) (hl : l ∈ d.layers) : l ∈ (d.moveLayer i t).layers := by
  unfold DocumentModel.moveLayer
  split
  · exact hl
  · rename_i fromIndex hfind
    by_cases ht : t < d.layers.length
    · rw [if_pos ht]
      show l ∈ (d.layers.eraseIdx fromIndex).take t ++ [d.layers.getD fromIndex ⟨""⟩] ++
        (d.layers.eraseIdx fromIndex).drop t
      have hfrom : fromIndex < d.layers.length := findIdxQ_some_lt _ _ _ hfind
      have hsplit : d.layers = d.layers.take fromIndex ++
          d.layers[fromIndex] :: d.layers.drop (fromIndex + 1) := by
        rw [← List.drop_eq_getElem_cons hfrom, List.take_append_drop]
      have hgetD : d.layers.getD fromIndex ⟨""⟩ = d.layers[fromIndex] :=
        List.getD_eq_getElem _ _ hfrom
      have herase : d.layers.eraseIdx fromIndex =
          d.layers.take fromIndex ++ d.layers.drop (fromIndex + 1) :=
        List.eraseIdx_eq_take_drop_succ _ _
      -- either `l` sits at the spliced index, or it survives in `removed`
      by_cases hx : l = d.layers[fromIndex]
      · refine List.mem_append.mpr (Or.inl (List.mem_append.mpr (Or.inr ?_)))
        exact List.mem_singleton.mpr (by rw [hx, hgetD])
      · have hmem2 : l ∈ d.layers.eraseIdx fromIndex := by
          rw [herase]
          have hmem0 := hsplit ▸ hl
          rcases List.mem_append.mp hmem0 with h1 | h2
          · exact List.mem_append.mpr (Or.inl h1)
          · rcases List.mem_cons.mp h2 with h3 | h4
            · exact absurd h3 hx
            · exact List.mem_append.mpr (Or.inr h4)
        have hsplit2 : l ∈ (d.layers.eraseIdx fromIndex).take t ∨
            l ∈ (d.layers.eraseIdx fromIndex).drop t := by
          rw [← List.mem_append, List.take_append_drop]
          exact hmem2
        rcases hsplit2 with h1 | h2
        · exact List.mem_append.mpr (Or.inl (List.mem_append.mpr (Or.inl h1)))
        · exact List.mem_append.mpr (Or.inr h2)
    · rw [if_neg ht]
      exact hl

namespace DocumentModel

theorem activeValid_empty : ActiveValid empty := by
  intro i h
  simp [empty] at h

theorem activeValid_addLayer (d : DocumentModel) (l : LayerM)
    (_ : ActiveValid d) : ActiveValid (d.addLayer l) := by
  intro i h
  simp only [addLayer, Option.some.injEq] at h
  exact ⟨l, by simp [addLayer], h⟩

theorem activeValid_deleteLayer (d : DocumentModel) (i : String)
    (hd : ActiveValid d) : ActiveValid (d.deleteLayer i) := by
  intro j hj
  simp only [deleteLayer] at hj ⊢
  by_cases hcase : d.activeLayerId = some i
  · rw [if_pos hcase] at hj
    rcases Option.map_eq_some'.mp hj with ⟨l, hl, rfl⟩
    exact ⟨l, getLastQ_mem _ _ hl, rfl⟩
  · rw [if_neg hcase] at hj
    rcases hd j hj with ⟨l, hl, hid⟩
    refine ⟨l, List.mem_filter.mpr ⟨hl, ?_⟩, hid⟩
    have : l.id ≠ i := fun hli => hcase (hj.trans (by rw [← hid, hli]))
    simpa using this

theorem activeValid_moveLayer (d : DocumentModel) (i : String) (t : ℕ)
    (hd : ActiveValid d) : ActiveValid (d.moveLayer i t) := by
  intro j hj
  have hactive : (d.moveLayer i t).activeLayerId = d.activeLayerId := by
    unfold moveLayer
    split
    · rfl
    · split
      · rfl
      · rfl
  rw [hactive] at hj
  rcases hd j hj with ⟨l, hl, hid⟩
  exact ⟨l, mem_moveLayer_of_mem d i t l hl, hid⟩

theorem activeValid_applyOp (d : DocumentModel) (op : Op)
    (hd : ActiveValid d) : ActiveValid (d.applyOp op) := by
  cases op with
  | add l => exact activeValid_addLayer d l hd
  | delete i => exact activeValid_deleteLayer d i hd
  | move i t => exact activeValid_moveLayer d i t hd

theorem activeValid_run (ops : List Op) :
    ∀ (d : DocumentModel), ActiveValid d → ActiveValid (d.run ops) := by
  induction ops with
  | nil => intro d h; exact h
  | cons op rest ih =>
      intro d h
      exact ih (d.applyOp op) (activeValid_applyOp d op h)

end DocumentModel

/-- **C10.** For every sequence of Document operations (addLayer,
deleteLayer, moveLayer) starting from the empty document, after each
operation `activeLayerId`, if non-null, references a layer currently in
`layers`. -/
theorem c10_document_active_layer_invariant (ops : List DocumentModel.Op) :
    DocumentModel.ActiveValid (DocumentModel.empty.run ops) :=
  DocumentModel.activeValid_run ops DocumentModel.empty
    DocumentModel.activeValid_empty

/-! ## Effect stack cache keys (`src/effects/EffectStack.ts`)

`generateCacheKey(layerId, effects)` filters the enabled effects, renders
each as `definitionId:{k=JSON(v),...}` and joins everything with `|`. -/

/-- A stored parameter value (float/int, color triple, boolean, select). -/
inductive PVal where
  | num (q : ℚ)
  | color (r g b : ℚ)
  | bool (b : Bool)
  | str (s : String)

/-- `JSON.stringify` of a scalar parameter value. Numbers are rendered via
the canonical rational printer: the exact digit string JavaScript would
print is immaterial here, only that each value gets one definite
rendering. -/
def encodeVal : PVal → String
  | .num q => toString q
  | .color r g b => "[" ++ toString r ++ "," ++ toString g ++ "," ++ toString b ++ "]"
  | .bool b => if b then "true" else "false"
  | .str s => "\"" ++ s ++ "\""

/-- A `LayerEffect` as `EffectStack.ts` sees it: definition id, enabled
flag and the ordered parameter map. -/
structure LayerEffectCK where
  definitionId : String
  enabled : Bool
  params : List (String × PVal)

/-- `Array.prototype.join(sep)`. -/
def joinSep (sep : String) : List String → String
  | [] => ""
  | [x] => x
  | x :: y :: xs => x ++ sep ++ joinSep sep (y :: xs)

/-- The `k=JSON.stringify(v)` fragments of one effect, comma-joined. -/
def paramFragment (ps : List (String × PVal)) : String :=
  joinSep "," (ps.map (fun kv => kv.1 ++ "=" ++ encodeVal kv.2))

/-- One serialized enabled effect: `definitionId:{...}`. -/
def effectPart (e : LayerEffectCK) : String :=
  e.definitionId ++ ":\x7b" ++ paramFragment e.params ++ "\x7d"

/-- `generateCacheKey`: layer id, then the serialized enabled effects
joined with `|`. -/
def generateCacheKey (layerId : String) (effects : List LayerEffectCK) : String :=
  layerId ++ "|" ++ joinSep "|" ((effects.filter (fun e => e.enabled)).map effectPart)

/-- The serialized enabled-effect parts of a stack. -/
def enabledParts (effects : List LayerEffectCK) : List String :=
  (effects.filter (fun e => e.enabled)).map effectPart

/-- A string that avoids the `|` join separator. -/
abbrev BarFree (s : String) : Prop := '|' ∉ s.data

/-- Splitting a character list at the first separator is unambiguous. -/
theorem splitSep_inj {a : List Char} :
    ∀ {b u v : List Char}, '|' ∉ a → '|' ∉ b →
      a ++ '|' :: u = b ++ '|' :: v → a = b ∧ u = v := by
  induction a with
  | nil =>
      intro b u v _ hb h
      cases b with
      | nil => simpa using h
      | cons c bt =>
          exfalso
          have hc : c = '|' := by
            have := congrArg (fun l => l.head?) h
            simpa using this.symm
          exact hb (by simp [hc])
  | cons c at' ih =>
      intro b u v ha hb h
      cases b with
      | nil =>
          exfalso
          have hc : c = '|' := by
            have := congrArg (fun l => l.head?) h
            simpa using this
          exact ha (by simp [hc])
      | cons c' bt =>
          have hheads : c = c' ∧ at' ++ '|' :: u = bt ++ '|' :: v := by
            simpa using h
          have ha' : '|' ∉ at' := fun hx => ha (List.mem_cons_of_mem _ hx)
          have hb' : '|' ∉ bt := fun hx => hb (List.mem_cons_of_mem _ hx)
          rcases ih ha' hb' hheads.2 with ⟨h1, h2⟩
          exact ⟨by rw [hheads.1, h1], h2⟩

/-- `joinSep "|"` is injective on lists of nonempty, bar-free parts. -/
theorem joinSep_bar_inj :
    ∀ (a b : List String), (∀ p ∈ a, BarFree p ∧ p ≠ "") →
      (∀ p ∈ b, BarFree p ∧ p ≠ "") →
      joinSep "|" a = joinSep "|" b → a = b := by
  intro a
  induction a with
  | nil =>
      intro b _ hb h
      cases b with
      | nil => rfl
      | cons y ys =>
          exfalso
          cases ys with
          | nil =>
              exact (hb y (List.mem_singleton_self y)).2 (by simpa [joinSep] using h.symm)
          | cons z zs =>
              have hdata := congrArg String.data h
              simp only [joinSep, String.data_append] at hdata
              have hlen := congrArg List.length hdata
              simp only [List.length_nil, List.length_append, List.length_cons,
                List.length_singleton] at hlen
              omega
  | cons x xs ih =>
      intro b ha hb h
      cases b with
      | nil =>
          exfalso
          cases xs with
          | nil =>
              exact (ha x (List.mem_singleton_self x)).2 (by simpa [joinSep] using h)
          | cons z zs =>
              have hdata := congrArg String.data h
              simp only [joinSep, String.data_append] at hdata
              have hlen := congrArg List.length hdata
              simp only [List.length_nil, List.length_append, List.length_cons,
                List.length_singleton] at hlen
              omega
      | cons y ys =>
          cases xs with
          | nil =>
              cases ys with
              | nil => simpa [joinSep] using h
              | cons z zs =>
                  exfalso
                  have hdata := congrArg String.data h
                  simp only [joinSep, String.data_append] at hdata
                  have hxbar : '|' ∈ x.data := by
                    rw [hdata]
                    refine List.mem_append.mpr (Or.inl (List.mem_append.mpr (Or.inr ?_)))
                    simp
                  exact (ha x (List.mem_cons_self x [])).1 hxbar
          | cons w ws =>
              cases ys with
              | nil =>
                  exfalso
                  have hdata := congrArg String.data h
                  simp only [joinSep, String.data_append] at hdata
                  have hybar : '|' ∈ y.data := by
                    rw [← hdata]
                    refine List.mem_append.mpr (Or.inl (List.mem_append.mpr (Or.inr ?_)))
                    simp
                  exact (hb y (List.mem_cons_self y [])).1 hybar
              | cons z zs =>
                  have hdata := congrArg String.data h
                  simp only [joinSep, String.data_append] at hdata
                  have hsplit := splitSep_inj
                    (a := x.data) (b := y.data)
                    (u := (joinSep "|" (w :: ws)).data) (v := (joinSep "|" (z :: zs)).data)
                    (ha x (List.mem_cons_self x _)).1 (hb y (List.mem_cons_self y _)).1
                    (by simpa using hdata)
                  have hx : x = y := String.ext hsplit.1
                  have hrest : joinSep "|" (w :: ws) = joinSep "|" (z :: zs) :=
                    String.ext hsplit.2
                  have htail : w :: ws = z :: zs :=
                    ih (z :: zs)
                      (fun p hp => ha p (List.mem_cons_of_mem _ hp))
                      (fun p hp => hb p (List.mem_cons_of_mem _ hp)) hrest
                  rw [hx, htail]

/-- Every serialized effect part is nonempty (it always contains `:`). -/
theorem effectPart_ne_empty (e : LayerEffectCK) : effectPart e ≠ "" := by
  intro h
  have hdata := congrArg String.data h
  simp only [effectPart, String.data_append] at hdata
  have hlen := congrArg List.length hdata
  simp only [List.length_nil, List.length_append] at hlen
  simp at hlen

/-- Keys with a common layer id agree iff the joined parts agree. -/
theorem generateCacheKey_eq_iff_join (layerId : String) (s₁ s₂ : List LayerEffectCK) :
    generateCacheKey layerId s₁ = generateCacheKey layerId s₂ ↔
      joinSep "|" (enabledParts s₁) = joinSep "|" (enabledParts s₂) := by
  constructor
  · intro h
    have hdata := congrArg String.data h
    simp only [generateCacheKey, String.data_append] at hdata
    rw [List.append_assoc, List.append_assoc] at hdata
    have h1 := List.append_cancel_left hdata
    have h2 := List.append_cancel_left h1
    exact String.ext h2
  · intro h
    simp only [generateCacheKey, enabledParts] at *
    rw [h]

/-- **C4 (amended).** With a fixed layer id, two effect stacks receive the
same cache key exactly when their enabled effects serialize to the same
ordered part list; disabled effects never influence the key — not their
parameter values, and not their presence or position either — provided no
serialized part contains the `|` join separator. -/
theorem c4_cacheKey_determined_by_enabled_parts (layerId : String)
    (s₁ s₂ : List LayerEffectCK)
    (h₁ : ∀ e ∈ s₁, BarFree (effectPart e))
    (h₂ : ∀ e ∈ s₂, BarFree (effectPart e)) :
    generateCacheKey layerId s₁ = generateCacheKey layerId s₂ ↔
      enabledParts s₁ = enabledParts s₂ := by
  rw [generateCacheKey_eq_iff_join]
  constructor
  · intro h
    refine joinSep_bar_inj _ _ ?_ ?_ h
    · intro p hp
      simp only [enabledParts, List.mem_map] at hp
      rcases hp with ⟨e, he, rfl⟩
      exact ⟨h₁ e (List.mem_of_mem_filter he), effectPart_ne_empty e⟩
    · intro p hp
      simp only [enabledParts, List.mem_map] at hp
      rcases hp with ⟨e, he, rfl⟩
      exact ⟨h₂ e (List.mem_of_mem_filter he), effectPart_ne_empty e⟩
  · intro h
    rw [h]

/-- A disabled bloom instance with concrete parameter values. -/
def bloomDisabledCK : LayerEffectCK :=
  ⟨"bloom", false,
    [("threshold", .num 1), ("radius", .num 8), ("strength", .num 1)]⟩

/-- An enabled color-grading instance (only the scalar params shown are
needed for the witness). -/
def gradingEnabledCK (b : ℚ) : LayerEffectCK :=
  ⟨"color-grading", true, [("brightness", .num b)]⟩

/-- **C4 (counterexample).** A stack holding one disabled bloom effect and
the empty stack differ in effect identity, yet `generateCacheKey` maps both
to the same key — the claim's sensitivity to "effect identity" fails for
disabled effects. -/
theorem c4_counterexample_disabled_presence :
    generateCacheKey "layer1" [bloomDisabledCK] = generateCacheKey "layer1" [] ∧
      [bloomDisabledCK] ≠ ([] : List LayerEffectCK) := by
  constructor
  · rfl
  · simp

/-- Witness for the amended C4 theorem at concrete stacks: two enabled
color-grading instances whose brightness differs produce different keys,
and a key is insensitive to appending a disabled bloom. -/
theorem c4_cacheKey_witness :
    (∀ e ∈ [gradingEnabledCK 1], BarFree (effectPart e)) ∧
    (∀ e ∈ [gradingEnabledCK 2, bloomDisabledCK], BarFree (effectPart e)) ∧
    (generateCacheKey "L" [gradingEnabledCK 1] =
        generateCacheKey "L" [gradingEnabledCK 2, bloomDisabledCK] ↔
      enabledParts [gradingEnabledCK 1] =
        enabledParts [gradingEnabledCK 2, bloomDisabledCK]) := by
  refine ⟨?_, ?_, ?_⟩
  · intro e he
    simp only [List.mem_singleton] at he
    subst he
    decide
  · intro e he
    simp only [List.mem_cons, List.mem_singleton] at he
    rcases he with rfl | rfl | h
    · decide
    · decide
    · simp at h
  · exact c4_cacheKey_determined_by_enabled_parts "L" _ _
      (by
        intro e he
        simp only [List.mem_singleton] at he
        subst he
        decide)
      (by
        intro e he
        simp only [List.mem_cons, List.mem_singleton] at he
        rcases he with rfl | rfl | h
        · decide
        · decide
        · simp at h)

/-! ## Separable Gaussian blur shaders

`blur.ts` (`u_sigma`), the blur passes of `bloom.ts` and `halation.ts`
(`u_radius`) all use the identical GLSL body: clamp the parameter below by
`0.001`, set `radius = int(ceil(sigma * 3.0))`, accumulate
`exp(-(i*i)/(2*sigma*sigma))`-weighted edge-clamped samples for
`i ∈ [-radius, radius]` along one axis, and divide by the weight total. -/

theorem Px.ext_fields {p q : Px} (hr : p.r = q.r) (hg : p.g = q.g)
    (hb : p.b = q.b) (ha : p.a = q.a) : p = q := by
  cases p
  cases q
  simp_all

instance : Zero Px := ⟨Px.zero⟩

instance : Add Px := ⟨Px.add⟩

instance : AddCommMonoid Px where
  add_assoc := by
    intro p q s
    exact Px.ext_fields (add_assoc _ _ _) (add_assoc _ _ _) (add_assoc _ _ _) (add_assoc _ _ _)
  zero_add := by
    intro p
    exact Px.ext_fields (zero_add _) (zero_add _) (zero_add _) (zero_add _)
  add_zero := by
    intro p
    exact Px.ext_fields (add_zero _) (add_zero _) (add_zero _) (add_zero _)
  add_comm := by
    intro p q
    exact Px.ext_fields (add_comm _ _) (add_comm _ _) (add_comm _ _) (add_comm _ _)
  nsmul := nsmulRec
  nsmul_zero := fun _ => rfl
  nsmul_succ := fun _ _ => rfl

/-- Reading the red channel is additive. -/
def Px.rHom : Px →+ ℝ where
  toFun := Px.r
  map_zero' := rfl
  map_add' := fun _ _ => rfl

/-- Reading the green channel is additive. -/
def Px.gHom : Px →+ ℝ where
  toFun := Px.g
  map_zero' := rfl
  map_add' := fun _ _ => rfl

/-- Reading the blue channel is additive. -/
def Px.bHom : Px →+ ℝ where
  toFun := Px.b
  map_zero' := rfl
  map_add' := fun _ _ => rfl

/-- Reading the alpha channel is additive. -/
def Px.aHom : Px →+ ℝ where
  toFun := Px.a
  map_zero' := rfl
  map_add' := fun _ _ => rfl

theorem Px.sum_r {ι : Type} (s : Finset ι) (f : ι → Px) :
    (∑ i in s, f i).r = ∑ i in s, (f i).r := map_sum Px.rHom f s

theorem Px.sum_g {ι : Type} (s : Finset ι) (f : ι → Px) :
    (∑ i in s, f i).g = ∑ i in s, (f i).g := map_sum Px.gHom f s

theorem Px.sum_b {ι : Type} (s : Finset ι) (f : ι → Px) :
    (∑ i in s, f i).b = ∑ i in s, (f i).b := map_sum Px.bHom f s

theorem Px.sum_a {ι : Type} (s : Finset ι) (f : ι → Px) :
    (∑ i in s, f i).a = ∑ i in s, (f i).a := map_sum Px.aHom f s

@[simp] theorem Px.smul_r (c : ℝ) (p : Px) : (Px.smul c p).r = c * p.r := rfl

@[simp] theorem Px.smul_g (c : ℝ) (p : Px) : (Px.smul c p).g = c * p.g := rfl

@[simp] theorem Px.smul_b (c : ℝ) (p : Px) : (Px.smul c p).b = c * p.b := rfl

@[simp] theorem Px.smul_a (c : ℝ) (p : Px) : (Px.smul c p).a = c * p.a := rfl

/-- The Gaussian tap weight `exp(-(i*i) / (2.0 * sigma * sigma))`. -/
def gaussW (sigma : ℝ) (i : ℤ) : ℝ :=
  Real.exp (-((i : ℝ) * i) / (2 * sigma * sigma))

theorem gaussW_pos (sigma : ℝ) (i : ℤ) : 0 < gaussW sigma i := Real.exp_pos _

/-- One horizontal separable-blur pass (`BLUR_H_FRAGMENT` and the
identically-coded `BLOOM_BLUR_H_FRAGMENT` / `HALATION_BLUR_H_FRAGMENT`):
the shader clamps `sigma` to at least `0.001`, sums
`2*ceil(3*sigma)+1` weighted samples along x, and normalizes. -/
def sepBlurHPx (sigmaParam : ℝ) (img : Img) (x y : ℕ) : Px :=
  Px.smul (1 / ∑ i in Finset.Icc (-⌈3 * max sigmaParam 0.001⌉) ⌈3 * max sigmaParam 0.001⌉,
      gaussW (max sigmaParam 0.001) i)
    (∑ i in Finset.Icc (-⌈3 * max sigmaParam 0.001⌉) ⌈3 * max sigmaParam 0.001⌉,
      Px.smul (gaussW (max sigmaParam 0.001) i) (sampleImg img ((x : ℤ) + i) (y : ℤ)))

/-- One vertical separable-blur pass (`BLUR_V_FRAGMENT` and the bloom and
halation vertical-blur twins). -/
def sepBlurVPx (sigmaParam : ℝ) (img : Img) (x y : ℕ) : Px :=
  Px.smul (1 / ∑ i in Finset.Icc (-⌈3 * max sigmaParam 0.001⌉) ⌈3 * max sigmaParam 0.001⌉,
      gaussW (max sigmaParam 0.001) i)
    (∑ i in Finset.Icc (-⌈3 * max sigmaParam 0.001⌉) ⌈3 * max sigmaParam 0.001⌉,
      Px.smul (gaussW (max sigmaParam 0.001) i) (sampleImg img (x : ℤ) ((y : ℤ) + i)))

/-- The horizontal pass over a whole image. -/
def sepBlurH (sigmaParam : ℝ) (img : Img) : Img :=
  ⟨img.width, img.height, fun x y => sepBlurHPx sigmaParam img x y⟩

/-- The vertical pass over a whole image. -/
def sepBlurV (sigmaParam : ℝ) (img : Img) : Img :=
  ⟨img.width, img.height, fun x y => sepBlurVPx sigmaParam img x y⟩

/-! ## The `EffectRenderer.ts` pipeline (PR #10 renderer)

A single WebGL canvas, two ping-pong textures (`frontTex`/`backTex`) and
framebuffers. Every `process` call re-uses the same canvas object; textures
are written in place, so they are modelled as named slots (`A`/`B`) in a
store, with `frontIsA` tracking the swap state. -/

/-- An all-zero image (a freshly created GL texture / cleared canvas). -/
def zeroImg (w h : ℕ) : Img := ⟨w, h, fun _ _ => Px.zero⟩

/-- The GL texture store of `EffectRenderer`: the two ping-pong texture
objects, which one is currently "front", and a count of draw calls. -/
structure ERGl where
  texA : Img
  texB : Img
  frontIsA : Bool
  draws : ℕ

namespace ERGl

/-- Contents of the current front texture. -/
def front (s : ERGl) : Img := if s.frontIsA then s.texA else s.texB

/-- Contents of the texture object named at capture time (`true` = `A`).
This models holding a reference such as `const baseTexture = this.frontTex`. -/
def readTex (s : ERGl) (nameIsA : Bool) : Img :=
  if nameIsA then s.texA else s.texB

/-- Render into the back framebuffer: overwrite the back texture object
and count one draw call. -/
def writeBack (s : ERGl) (img : Img) : ERGl :=
  if s.frontIsA then { s with texB := img, draws := s.draws + 1 }
  else { s with texA := img, draws := s.draws + 1 }

/-- `swapBuffers()`: exchange the front/back roles. -/
def swapBuffers (s : ERGl) : ERGl := { s with frontIsA := !s.frontIsA }

/-- `texImage2D` upload into the front texture (not a draw call). -/
def uploadFront (s : ERGl) (img : Img) : ERGl :=
  if s.frontIsA then { s with texA := img } else { s with texB := img }

end ERGl

/-- `blurFragmentShader` of `EffectRenderer.ts`: passthrough when
`uRadius ≤ 0.01`, otherwise a FIXED 25-tap loop `i ∈ [-12, 12]` of
`exp(-(i*i)/(2*uRadius*uRadius))` weights along `uDirection`, normalized
by `max(total, 0.0001)` — the loop bound does not depend on the radius. -/
def erBlurPx (dirX dirY : ℤ) (radius : ℝ) (img : Img) (x y : ℕ) : Px :=
  if radius ≤ 0.01 then img.pix x y
  else
    Px.smul (1 / max (∑ i in Finset.Icc (-12 : ℤ) 12, gaussW radius i) 0.0001)
      (∑ i in Finset.Icc (-12 : ℤ) 12,
        Px.smul (gaussW radius i) (sampleImg img ((x : ℤ) + dirX * i) ((y : ℤ) + dirY * i)))

/-- `bloomExtractFragmentShader` of `EffectRenderer.ts`:
`mask = smoothstep(threshold, min(1, threshold+0.25), luma)`, rgb scaled
by the mask, alpha preserved. -/
def erBloomExtractPx (threshold : ℝ) (p : Px) : Px :=
  ⟨p.r * smoothstepR threshold (min 1 (threshold + 0.25)) (lumaR p.r p.g p.b),
   p.g * smoothstepR threshold (min 1 (threshold + 0.25)) (lumaR p.r p.g p.b),
   p.b * smoothstepR threshold (min 1 (threshold + 0.25)) (lumaR p.r p.g p.b),
   p.a⟩

/-- `bloomCompositeFragmentShader` of `EffectRenderer.ts`:
`clamp(base + bloom * intensity, 0, 1)` with the base alpha. -/
def erBloomCompositePx (intensity : ℝ) (base bloom : Px) : Px :=
  ⟨clampR (base.r + bloom.r * intensity) 0 1,
   clampR (base.g + bloom.g * intensity) 0 1,
   clampR (base.b + bloom.b * intensity) 0 1,
   base.a⟩

/-- `rgb2hsv` as written identically in `colorGrading.ts` and in
`EffectRenderer.ts`'s `baseFragmentShader` (epsilon `1e-10`). -/
def rgb2hsvGL (r g b : ℝ) : ℝ × ℝ × ℝ :=
  let p : ℝ × ℝ × ℝ × ℝ := if b ≤ g then (g, b, 0, -(1/3)) else (b, g, -1, 2/3)
  let q : ℝ × ℝ × ℝ × ℝ :=
    if p.1 ≤ r then (r, p.2.1, p.2.2.1, p.1) else (p.1, p.2.1, p.2.2.2, r)
  let d : ℝ := q.1 - min q.2.2.2 q.2.1
  (|q.2.2.1 + (q.2.2.2 - q.2.1) / (6 * d + 1e-10)|, d / (q.1 + 1e-10), q.1)

/-- One output channel of the GLSL one-liner `hsv2rgb`:
`v * mix(1, clamp(|fract(h+k)*6-3| - 1, 0, 1), s)`. -/
def hsv2rgbChan (h s v k : ℝ) : ℝ :=
  v * mixR 1 (clampR (|fractR (h + k) * 6 - 3| - 1) 0 1) s

/-- `hsv2rgb` of `colorGrading.ts` (offsets `K.xyz = (1, 2/3, 1/3)`). -/
def hsv2rgbCG (h s v : ℝ) : ℝ × ℝ × ℝ :=
  (hsv2rgbChan h s v 1, hsv2rgbChan h s v (2/3), hsv2rgbChan h s v (1/3))

/-- `hsv2rgb` of `EffectRenderer.ts`'s `baseFragmentShader`
(offsets `(0, 1/3, 2/3)`). -/
def hsv2rgbER (h s v : ℝ) : ℝ × ℝ × ℝ :=
  (hsv2rgbChan h s v 0, hsv2rgbChan h s v (1/3), hsv2rgbChan h s v (2/3))

/-- Mode 1 of `baseFragmentShader` (EffectRenderer color grading):
brightness multiply, contrast about 0.5, HSV saturation scale and hue
offset, scalar lift/gain then gamma, final clamp; alpha preserved. -/
def erGradePx (brightness contrast saturation hueShift lift gamma gain : ℝ)
    (p : Px) : Px :=
  let c1r := p.r * brightness
  let c1g := p.g * brightness
  let c1b := p.b * brightness
  let c2r := (c1r - 0.5) * contrast + 0.5
  let c2g := (c1g - 0.5) * contrast + 0.5
  let c2b := (c1b - 0.5) * contrast + 0.5
  let hsv := rgb2hsvGL c2r c2g c2b
  let s' := clampR (hsv.2.1 * saturation) 0 1
  let h' := fractR (hsv.1 + hueShift)
  let c3 := hsv2rgbER h' s' hsv.2.2
  let c4r := (c3.1 + lift) * gain
  let c4g := (c3.2.1 + lift) * gain
  let c4b := (c3.2.2 + lift) * gain
  let gr := 1 / max 0.001 gamma
  ⟨clampR (max c4r 0 ^ gr) 0 1, clampR (max c4g 0 ^ gr) 0 1,
   clampR (max c4b 0 ^ gr) 0 1, p.a⟩

/-- Mode 2 of `baseFragmentShader` (EffectRenderer vignette):
`dist = |uv-0.5| / max(0.001, radius)`, `mask = smoothstep(1-softness, 1,
dist)`, blend towards the vignette color by `mask*strength`. -/
def erVignettePx (radius softness strength : ℝ) (col : ℝ × ℝ × ℝ)
    (w h x y : ℕ) (p : Px) : Px :=
  let u := ((x : ℝ) + 0.5) / w - 0.5
  let v := ((y : ℝ) + 0.5) / h - 0.5
  let dist := Real.sqrt (u * u + v * v) / max 0.001 radius
  let mask := smoothstepR (1 - softness) 1 dist
  ⟨clampR (mixR p.r col.1 (mask * strength)) 0 1,
   clampR (mixR p.g col.2.1 (mask * strength)) 0 1,
   clampR (mixR p.b col.2.2 (mask * strength)) 0 1, p.a⟩

/-- `runBlurPass`: two draws through `blurFragmentShader` (H then V) with
`uRadius = max(0, radius)`, each into the back buffer followed by a swap. -/
def runBlurPassER (radius : ℝ) (w h : ℕ) (s : ERGl) : ERGl :=
  let r := max 0 radius
  let s1 := (s.writeBack ⟨w, h, fun x y => erBlurPx 1 0 r s.front x y⟩).swapBuffers
  (s1.writeBack ⟨w, h, fun x y => erBlurPx 0 1 r s1.front x y⟩).swapBuffers

/-- `runBloom`: captures `baseTexture = this.frontTex` (a texture OBJECT,
not a copy), extracts highlights into the back buffer, blurs, then
composites reading the captured texture object — whose contents the blur
passes may meanwhile have overwritten. -/
def runBloomER (threshold radius intensity : ℝ) (w h : ℕ) (s : ERGl) : ERGl :=
  let baseName := s.frontIsA
  let s1 := (s.writeBack ⟨w, h, fun x y => erBloomExtractPx threshold (s.front.pix x y)⟩).swapBuffers
  let s2 := runBlurPassER radius w h s1
  let baseImg := s2.readTex baseName
  let bloomImg := s2.front
  (s2.writeBack ⟨w, h, fun x y =>
    erBloomCompositePx intensity (baseImg.pix x y) (bloomImg.pix x y)⟩).swapBuffers

/-- `runPass` for mode 1 (color grading): one draw into the back buffer
plus a swap. -/
def runGradePassER (brightness contrast saturation hueShift lift gamma gain : ℝ)
    (w h : ℕ) (s : ERGl) : ERGl :=
  (s.writeBack ⟨w, h, fun x y =>
    erGradePx brightness contrast saturation hueShift lift gamma gain
      (s.front.pix x y)⟩).swapBuffers

/-- `runPass` for mode 2 (vignette): one draw into the back buffer plus a
swap. -/
def runVignettePassER (radius softness strength : ℝ) (col : ℝ × ℝ × ℝ)
    (w h : ℕ) (s : ERGl) : ERGl :=
  (s.writeBack ⟨w, h, fun x y =>
    erVignettePx radius softness strength col w h x y (s.front.pix x y)⟩).swapBuffers

/-- A `LayerEffect` as `EffectRenderer.process` dispatches on it
(`src/effects/types.ts`): a type tag, the enabled flag and the numeric
parameters each branch reads. `otherFx` stands for any type string the
if/else chain does not match. -/
inductive EREffect where
  | gaussianBlur (enabled : Bool) (sigma : ℝ)
  | bloomFx (enabled : Bool) (threshold radius intensity : ℝ)
  | vignetteFx (enabled : Bool) (radius softness strength : ℝ) (col : ℝ × ℝ × ℝ)
  | colorGradingFx (enabled : Bool)
      (brightness contrast saturation hueShift lift gamma gain : ℝ)
  | otherFx (enabled : Bool)

/-- The enabled flag of an effect entry. -/
def EREffect.isOn : EREffect → Bool
  | .gaussianBlur e _ => e
  | .bloomFx e _ _ _ => e
  | .vignetteFx e _ _ _ _ => e
  | .colorGradingFx e _ _ _ _ _ _ _ => e
  | .otherFx e => e

/-- One iteration of `process`'s effect loop: disabled entries are
skipped (`continue`), enabled entries dispatch on the type tag. -/
def erStep (w h : ℕ) (s : ERGl) : EREffect → ERGl
  | .gaussianBlur true sigma => runBlurPassER sigma w h s
  | .bloomFx true threshold radius intensity => runBloomER threshold radius intensity w h s
  | .vignetteFx true radius softness strength col =>
      runVignettePassER radius softness strength col w h s
  | .colorGradingFx true br ct sa hu l ga gn => runGradePassER br ct sa hu l ga gn w h s
  | _ => s

/-- The mutable fields of an `EffectRenderer` instance: GL support, the
current target size, whether textures/framebuffers exist, the texture
store and the single shared output canvas. -/
structure ERState where
  supported : Bool
  width : ℕ
  height : ℕ
  allocated : Bool
  gl : ERGl
  canvas : Img

/-- A freshly constructed renderer with a working GL context: nothing
allocated, zero-sized canvas. -/
def erInitial : ERState :=
  ⟨true, 0, 0, false, ⟨zeroImg 0 0, zeroImg 0 0, true, 0⟩, zeroImg 0 0⟩

/-- `ensureTargets`: reallocate both textures and resize the canvas when
the size changed or nothing exists yet; otherwise leave everything. -/
def ensureTargets (st : ERState) (w h : ℕ) : ERState :=
  if st.width = w ∧ st.height = h ∧ st.allocated then st
  else
    { st with
      width := w
      height := h
      allocated := true
      gl := ⟨zeroImg w h, zeroImg w h, true, st.gl.draws⟩
      canvas := zeroImg w h }

/-- What a `process` call hands back: the caller's own `source` object, or
the renderer's single shared canvas. -/
inductive ERRet where
  | sourceRef
  | canvasRef
deriving DecidableEq

/-- `EffectRenderer.process`: early-return the source when unsupported or
when the effect list is EMPTY (a non-empty all-disabled list continues);
otherwise allocate targets, upload the source into the front texture, run
the enabled effects, then draw the front texture to the shared canvas
(one more draw call) and return that canvas. -/
def erProcess (st : ERState) (src : Img) (effects : List EREffect) (w h : ℕ) :
    ERRet × ERState :=
  if st.supported = false ∨ effects.length = 0 then (.sourceRef, st)
  else
    let st1 := ensureTargets st w h
    let gl0 := st1.gl.uploadFront src
    let glF := effects.foldl (erStep w h) gl0
    let glD := { glF with draws := glF.draws + 1 }
    (.canvasRef, { st1 with gl := glD, canvas := glD.front })

/-! ## The `WebGLEffectsPipeline.ts` pipeline (PR #9 renderer)

Five scalar color adjustments resolved from the effect list; a lazily
created GL context whose shader compilation failures are swallowed
(`compileShader` returns `null`), after which `apply` silently hands the
unprocessed source back. -/

/-- A `LayerEffect` as `model/Layer.ts` declares it (type tag, enabled
flag, scalar value). -/
structure WPEffect where
  kind : String
  enabled : Bool
  value : ℝ

/-- `readUniforms`' helper: first effect of the given type, `0` when
missing or disabled. -/
def wpGetValue (effects : List WPEffect) (t : String) : ℝ :=
  match effects.find? (fun e => e.kind = t) with
  | none => 0
  | some e => if e.enabled then e.value else 0

/-- The five resolved uniforms. -/
structure WPUniforms where
  exposure : ℝ
  brightness : ℝ
  contrast : ℝ
  saturation : ℝ
  hue : ℝ

/-- `readUniforms`. -/
def wpReadUniforms (effects : List WPEffect) : WPUniforms :=
  ⟨wpGetValue effects "exposure", wpGetValue effects "brightness",
   wpGetValue effects "contrast", wpGetValue effects "saturation",
   wpGetValue effects "hue"⟩

/-- `hasActiveEffect`: some resolved uniform is nonzero. -/
def wpHasActiveEffect (u : WPUniforms) : Prop :=
  u.exposure ≠ 0 ∨ u.brightness ≠ 0 ∨ u.contrast ≠ 0 ∨ u.saturation ≠ 0 ∨ u.hue ≠ 0

/-- The GL environment the pipelines run in: whether a context can be
obtained and whether each static build step succeeds. -/
structure GLEnv where
  contextAvailable : Bool
  vertexCompileOk : Bool
  fragmentCompileOk : Bool
  linkOk : Bool
  bufferOk : Bool
  textureOk : Bool

/-- `ensureContext` succeeds only when every build step does; any failure
makes it return `null` — silently. -/
def wpEnsureContextOk (env : GLEnv) : Bool :=
  env.contextAvailable && env.vertexCompileOk && env.fragmentCompileOk &&
    env.linkOk && env.bufferOk && env.textureOk

/-- `applyHue` of `FRAGMENT_SOURCE`: rotation matrix around the luma axis
(GLSL `mat3` columns listed first-to-third), result clamped to `[0,1]`. -/
def wpApplyHue (angleDegrees r g b : ℝ) : ℝ × ℝ × ℝ :=
  let ang := angleDegrees * Real.pi / 180
  let s := Real.sin ang
  let c := Real.cos ang
  (clampR ((0.213 + c * 0.787 - s * 0.213) * r + (0.213 - c * 0.213 + s * 0.143) * g +
      (0.213 - c * 0.213 - s * 0.787) * b) 0 1,
   clampR ((0.715 - c * 0.715 - s * 0.715) * r + (0.715 + c * 0.285 + s * 0.140) * g +
      (0.715 - c * 0.715 + s * 0.715) * b) 0 1,
   clampR ((0.072 - c * 0.072 + s * 0.928) * r + (0.072 - c * 0.072 - s * 0.283) * g +
      (0.072 + c * 0.928 + s * 0.072) * b) 0 1)

/-- `FRAGMENT_SOURCE`'s per-pixel body: exposure gain `2^e`, additive
brightness, contrast `1+k` about 0.5, saturation `mix(luma, c, 1+s)`,
hue rotation, final clamp; alpha preserved. -/
def wpShaderPx (u : WPUniforms) (p : Px) : Px :=
  let e := Real.exp (u.exposure * Real.log 2)
  let r1 := p.r * e + u.brightness
  let g1 := p.g * e + u.brightness
  let b1 := p.b * e + u.brightness
  let r2 := (r1 - 0.5) * (1 + u.contrast) + 0.5
  let g2 := (g1 - 0.5) * (1 + u.contrast) + 0.5
  let b2 := (b1 - 0.5) * (1 + u.contrast) + 0.5
  let l := lumaR r2 g2 b2
  let r3 := mixR l r2 (1 + u.saturation)
  let g3 := mixR l g2 (1 + u.saturation)
  let b3 := mixR l b2 (1 + u.saturation)
  let hued := wpApplyHue u.hue r3 g3 b3
  ⟨clampR hued.1 0 1, clampR hued.2.1 0 1, clampR hued.2.2 0 1, p.a⟩

open scoped Classical in
/-- `WebGLEffectsPipeline.apply`: return the source untouched when no
uniform is active OR when the lazy context/program build failed (the
silent fallback); otherwise render into the pipeline's canvas. -/
def wpApply (env : GLEnv) (src : Img) (w h : ℕ) (effects : List WPEffect) : Img :=
  if ¬ wpHasActiveEffect (wpReadUniforms effects) then src
  else if wpEnsureContextOk env = false then src
  else ⟨w, h, fun x y => wpShaderPx (wpReadUniforms effects) (src.pix x y)⟩

/-- `EffectRenderer`'s construction-time shader build (`createProgram` /
`compile`): a missing WebGL2 context leaves every program `null` without
raising; a failed shader compile or program link THROWS. `some`/`none`
reflect whether programs exist; `.error` is the thrown exception. -/
def erConstruct (env : GLEnv) : Except String (Option Unit) :=
  if env.contextAvailable = false then .ok none
  else if env.vertexCompileOk = false then .error "Shader compile failed"
  else if env.fragmentCompileOk = false then .error "Shader compile failed"
  else if env.linkOk = false then .error "Program link failed"
  else .ok (some ())

/-! ## Claims C2, C3, C8: renderer behaviour -/

/-- A 1×1 image of 0.2-gray. -/
def gray02 : Img := ⟨1, 1, fun _ _ => ⟨0.2, 0.2, 0.2, 1⟩⟩

/-- A 1×1 image of 0.8-gray. -/
def gray08 : Img := ⟨1, 1, fun _ _ => ⟨0.8, 0.8, 0.8, 1⟩⟩

/-- A disabled effect never changes the GL state in `process`'s loop. -/
theorem erStep_disabled (w h : ℕ) (s : ERGl) (e : EREffect)
    (he : e.isOn = false) : erStep w h s e = s := by
  cases e with
  | gaussianBlur en σ => cases en with
      | true => simp [EREffect.isOn] at he
      | false => rfl
  | bloomFx en a b c => cases en with
      | true => simp [EREffect.isOn] at he
      | false => rfl
  | vignetteFx en a b c col => cases en with
      | true => simp [EREffect.isOn] at he
      | false => rfl
  | colorGradingFx en a b c d e f g => cases en with
      | true => simp [EREffect.isOn] at he
      | false => rfl
  | otherFx en => cases en with
      | true => rfl
      | false => rfl

theorem erFold_disabled (w h : ℕ) :
    ∀ (effects : List EREffect) (s : ERGl), (∀ e ∈ effects, e.isOn = false) →
      effects.foldl (erStep w h) s = s := by
  intro effects
  induction effects with
  | nil => intro s _; rfl
  | cons e rest ih =>
      intro s hall
      rw [List.foldl_cons, erStep_disabled w h s e (hall e (List.mem_cons_self e rest))]
      exact ih s (fun x hx => hall x (List.mem_cons_of_mem e hx))

/-- Uploading into the front texture makes it the front contents. -/
theorem front_uploadFront (s : ERGl) (img : Img) : (s.uploadFront img).front = img := by
  cases hf : s.frontIsA <;> simp [ERGl.uploadFront, ERGl.front, hf]

/-- `wpGetValue` resolves to `0` whenever every effect is disabled. -/
theorem wpGetValue_zero (effects : List WPEffect) (t : String)
    (h : ∀ e ∈ effects, e.enabled = false) : wpGetValue effects t = 0 := by
  simp only [wpGetValue]
  rcases hf : effects.find? (fun e => e.kind = t) with _ | e
  · rw [hf]
  · rw [hf]
    have he : e.enabled = false := h e (List.mem_of_find?_eq_some hf)
    simp [he]

/-- **C3 (counterexample).** A stack holding a single DISABLED blur: the
claim says the engine returns the source unchanged without allocating
buffers or running any shader pass, but `EffectRenderer.process` only
early-returns on an EMPTY list — here it allocates render targets, runs
one draw (the final copy to its canvas) and returns the canvas, not the
source object. -/
theorem c3_counterexample_disabled_allocates :
    (erProcess erInitial gray02 [EREffect.gaussianBlur false 4] 1 1).1 = ERRet.canvasRef ∧
    (erProcess erInitial gray02 [EREffect.gaussianBlur false 4] 1 1).2.allocated = true ∧
    (erProcess erInitial gray02 [EREffect.gaussianBlur false 4] 1 1).2.gl.draws = 1 := by
  refine ⟨?_, ?_, ?_⟩ <;>
    simp [erProcess, erInitial, ensureTargets, erStep, ERGl.uploadFront, ERGl.front]

/-- **C3 (amended).** Passthrough behaviour as the code implements it:
(1) an EMPTY effect list returns the source object with the renderer
state untouched (no buffer allocation, no draw);
(2) a non-empty list whose instances are all disabled does NOT return the
source: targets are allocated and one copy draw runs — but no effect pass
executes and the returned canvas is pixel-identical to the source;
(3) `WebGLEffectsPipeline.apply` returns the source unchanged whenever
every effect instance is disabled (all uniforms resolve to zero). -/
theorem c3_passthrough_amended (st : ERState) (src : Img) (w h : ℕ)
    (effects : List EREffect) (env : GLEnv) (wpeffects : List WPEffect)
    (hsup : st.supported = true) (hne : effects ≠ [])
    (hdis : ∀ e ∈ effects, e.isOn = false)
    (hwp : ∀ e ∈ wpeffects, e.enabled = false) :
    erProcess st src [] w h = (ERRet.sourceRef, st) ∧
    (erProcess st src effects w h).1 = ERRet.canvasRef ∧
    (erProcess st src effects w h).2.allocated = true ∧
    (erProcess st src effects w h).2.canvas = src ∧
    (erProcess st src effects w h).2.gl.draws = st.gl.draws + 1 ∧
    wpApply env src w h wpeffects = src := by
  have hlen : effects.length ≠ 0 := fun h0 => hne (List.length_eq_zero.mp h0)
  have hcond : ¬ (st.supported = false ∨ effects.length = 0) := by
    rintro (h1 | h2)
    · rw [hsup] at h1
      simp at h1
    · exact hlen h2
  have hfold := erFold_disabled w h effects ((ensureTargets st w h).gl.uploadFront src) hdis
  have hproc : erProcess st src effects w h =
      (ERRet.canvasRef,
        { ensureTargets st w h with
          gl := { ((ensureTargets st w h).gl.uploadFront src) with
            draws := ((ensureTargets st w h).gl.uploadFront src).draws + 1 }
          canvas := ((ensureTargets st w h).gl.uploadFront src).front }) := by
    rw [erProcess, if_neg hcond]
    simp only [hfold]
    rfl
  have hallocated : (ensureTargets st w h).allocated = true := by
    unfold ensureTargets
    split
    · rename_i hcase
      exact hcase.2.2
    · rfl
  have hdraws : ((ensureTargets st w h).gl.uploadFront src).draws = st.gl.draws := by
    unfold ensureTargets ERGl.uploadFront
    split
    · split <;> rfl
    · split <;> rfl
  refine ⟨?_, ?_, ?_, ?_, ?_, ?_⟩
  · simp [erProcess]
  · rw [hproc]
  · rw [hproc]
    exact hallocated
  · rw [hproc]
    exact front_uploadFront _ _
  · rw [hproc]
    simpa using hdraws
  · have hu : wpReadUniforms wpeffects = ⟨0, 0, 0, 0, 0⟩ := by
      unfold wpReadUniforms
      rw [wpGetValue_zero _ _ hwp, wpGetValue_zero _ _ hwp, wpGetValue_zero _ _ hwp,
        wpGetValue_zero _ _ hwp, wpGetValue_zero _ _ hwp]
    rw [wpApply, hu, if_pos]
    intro hactive
    rcases hactive with h | h | h | h | h <;> exact h rfl

/-- Witness for the amended C3 theorem at concrete inputs. -/
theorem c3_passthrough_witness :
    erInitial.supported = true ∧ ([EREffect.gaussianBlur false 4] ≠ []) ∧
    (∀ e ∈ [EREffect.gaussianBlur false 4], e.isOn = false) ∧
    (∀ e ∈ [WPEffect.mk "exposure" false 1], e.enabled = false) ∧
    (erProcess erInitial gray02 [] 1 1 = (ERRet.sourceRef, erInitial) ∧
      (erProcess erInitial gray02 [EREffect.gaussianBlur false 4] 1 1).1 = ERRet.canvasRef ∧
      (erProcess erInitial gray02 [EREffect.gaussianBlur false 4] 1 1).2.allocated = true ∧
      (erProcess erInitial gray02 [EREffect.gaussianBlur false 4] 1 1).2.canvas = gray02 ∧
      (erProcess erInitial gray02 [EREffect.gaussianBlur false 4] 1 1).2.gl.draws =
        erInitial.gl.draws + 1 ∧
      wpApply ⟨true, true, true, true, true, true⟩ gray02 1 1
        [WPEffect.mk "exposure" false 1] = gray02) :=
  ⟨rfl, by simp, by simp [EREffect.isOn], by simp,
    c3_passthrough_amended erInitial gray02 1 1 [EREffect.gaussianBlur false 4]
      ⟨true, true, true, true, true, true⟩ [WPEffect.mk "exposure" false 1]
      rfl (by simp) (by simp [EREffect.isOn]) (by simp)⟩

/-- **C2.** `EffectRenderer.process` hands out its single shared canvas on
every call (`return this.canvas`) and redraws into it: after processing a
0.2-gray source through an enabled sigma-0 blur the canvas reads 0.2, but
the next `process` call — same shared canvas reference returned — leaves
it reading 0.8. The image returned by the first call has been mutated in
place, falsifying "a new Image is always produced". -/
theorem c2_shared_canvas_mutated_by_next_process :
    (erProcess erInitial gray02 [EREffect.gaussianBlur true 0] 1 1).1 = ERRet.canvasRef ∧
    (((erProcess erInitial gray02 [EREffect.gaussianBlur true 0] 1 1).2.canvas.pix 0 0).r
        = 0.2) ∧
    ((erProcess (erProcess erInitial gray02 [EREffect.gaussianBlur true 0] 1 1).2
        gray08 [EREffect.gaussianBlur true 0] 1 1).1 = ERRet.canvasRef) ∧
    (((erProcess (erProcess erInitial gray02 [EREffect.gaussianBlur true 0] 1 1).2
        gray08 [EREffect.gaussianBlur true 0] 1 1).2.canvas.pix 0 0).r = 0.8) := by
  have h001 : (max (0 : ℝ) 0) ≤ 0.01 := by norm_num
  have h002 : (0 : ℝ) ≤ 1e-2 := by norm_num
  refine ⟨?_, ?_, ?_, ?_⟩ <;>
    simp [erProcess, erInitial, ensureTargets, erStep, runBlurPassER, ERGl.uploadFront,
      ERGl.front, ERGl.writeBack, ERGl.swapBuffers, erBlurPx, h001, h002, gray02, gray08]

/-- The GL environment in which the fragment shader fails to compile. -/
def fragFailEnv : GLEnv := ⟨true, true, false, true, true, true⟩

/-- An enabled exposure adjustment of strength 1. -/
def exposureOn : WPEffect := ⟨"exposure", true, 1⟩

/-- **C8 (counterexample).** With a context present but the fragment
shader failing to compile, `WebGLEffectsPipeline.apply` on an ACTIVE
effect silently returns the unprocessed source: `compileShader` returns
`null`, `ensureContext` returns `null`, no error reaches the caller —
falsifying "the engine never silently returns unprocessed output without
signaling the build failure". -/
theorem c8_counterexample_silent_fallback :
    wpApply fragFailEnv gray02 1 1 [exposureOn] = gray02 := by
  have hactive : wpHasActiveEffect (wpReadUniforms [exposureOn]) := by
    left
    simp [wpReadUniforms, wpGetValue, exposureOn]
  rw [wpApply, if_neg (by simpa using hactive)]
  rw [if_pos]
  rfl

/-- **C8 (amended).** Construction-time shader build failure is surfaced
differently by the two renderers: `EffectRenderer`'s constructor THROWS
when a shader fails to compile or the program fails to link (fatal,
surfaced once), but `WebGLEffectsPipeline` swallows the same failure —
its `compileShader` returns `null` and `apply` then returns the
unprocessed source with no error signalled to the caller. -/
theorem c8_build_failure_surfacing (env : GLEnv)
    (hctx : env.contextAvailable = true)
    (hfail : env.vertexCompileOk = false ∨ env.fragmentCompileOk = false ∨
      env.linkOk = false) :
    (∃ msg, erConstruct env = Except.error msg) ∧
    wpEnsureContextOk env = false ∧
    (∀ (src : Img) (w h : ℕ) (effects : List WPEffect),
      wpApply env src w h effects = src) := by
  have hens : wpEnsureContextOk env = false := by
    unfold wpEnsureContextOk
    rcases hfail with h | h | h <;> simp [h]
  refine ⟨?_, hens, ?_⟩
  · unfold erConstruct
    rw [if_neg (by simp [hctx])]
    rcases h1 : env.vertexCompileOk with _ | _
    · exact ⟨"Shader compile failed", by rw [if_pos rfl]⟩
    · rw [if_neg (by simp)]
      rcases h2 : env.fragmentCompileOk with _ | _
      · exact ⟨"Shader compile failed", by rw [if_pos rfl]⟩
      · rw [if_neg (by simp)]
        rcases h3 : env.linkOk with _ | _
        · exact ⟨"Program link failed", by rw [if_pos rfl]⟩
        · exfalso
          rcases hfail with h | h | h
          · rw [h1] at h
            simp at h
          · rw [h2] at h
            simp at h
          · rw [h3] at h
            simp at h
  · intro src w h effects
    rw [wpApply]
    split
    · rfl
    · simp [hens]

/-- Witness for the amended C8 theorem in the fragment-compile-failure
environment. -/
theorem c8_build_failure_witness :
    fragFailEnv.contextAvailable = true ∧
    (fragFailEnv.vertexCompileOk = false ∨ fragFailEnv.fragmentCompileOk = false ∨
      fragFailEnv.linkOk = false) ∧
    ((∃ msg, erConstruct fragFailEnv = Except.error msg) ∧
      wpEnsureContextOk fragFailEnv = false ∧
      (∀ (src : Img) (w h : ℕ) (effects : List WPEffect),
        wpApply fragFailEnv src w h effects = src)) :=
  ⟨rfl, Or.inr (Or.inl rfl),
    c8_build_failure_surfacing fragFailEnv rfl (Or.inr (Or.inl rfl))⟩

/-! ## Claim C5: Gaussian blur kernels -/

/-- Spec-side horizontal blur pass (§4.1 of the spec, stated in its own
words): kernel radius `⌈3σ⌉`, weight `exp(-(i²)/(2σ²))` for offsets in
`[-radius, radius]`, normalized by the weight sum, edge-clamped samples.
Unlike the shader there is no lower clamp on σ. -/
def specBlurHPx (sigma : ℝ) (img : Img) (x y : ℕ) : Px :=
  Px.smul (1 / ∑ i in Finset.Icc (-⌈3 * sigma⌉) ⌈3 * sigma⌉, gaussW sigma i)
    (∑ i in Finset.Icc (-⌈3 * sigma⌉) ⌈3 * sigma⌉,
      Px.smul (gaussW sigma i) (sampleImg img ((x : ℤ) + i) (y : ℤ)))

/-- Spec-side vertical blur pass. -/
def specBlurVPx (sigma : ℝ) (img : Img) (x y : ℕ) : Px :=
  Px.smul (1 / ∑ i in Finset.Icc (-⌈3 * sigma⌉) ⌈3 * sigma⌉, gaussW sigma i)
    (∑ i in Finset.Icc (-⌈3 * sigma⌉) ⌈3 * sigma⌉,
      Px.smul (gaussW sigma i) (sampleImg img (x : ℤ) ((y : ℤ) + i)))

/-- Spec-side two-pass separable Gaussian blur: horizontal then vertical. -/
def specGaussianBlurImg (sigma : ℝ) (img : Img) : Img :=
  let h : Img := ⟨img.width, img.height, fun x y => specBlurHPx sigma img x y⟩
  ⟨h.width, h.height, fun x y => specBlurVPx sigma h x y⟩

/-- `gaussianBlur` as `blur.ts` declares it: two passes, `BLUR_H_FRAGMENT`
then `BLUR_V_FRAGMENT`, both driven by the `sigma` parameter. -/
def gaussianBlurApply (sigma : ℝ) (img : Img) : Img :=
  sepBlurV sigma (sepBlurH sigma img)

/-- A 15×1 row that is black except for a white pixel at x = 13. -/
def spike13 : Img :=
  ⟨15, 1, fun x _ => if x = 13 then ⟨1, 1, 1, 1⟩ else ⟨0, 0, 0, 0⟩⟩

/-- **C5 (counterexample).** At sigma = 10 the claim requires the kernel
radius `⌈3·10⌉ = 30`; `EffectRenderer.ts`'s `blurFragmentShader` instead
loops over the fixed range `[-12, 12]`. On a row with its only light at
distance 13 the fixed-tap shader returns exactly 0 at x = 0 while the
`⌈3σ⌉`-radius kernel of `blur.ts` returns a strictly positive value — the
cited shader's loop bound is a fixed maximum, not derived from sigma. -/
theorem c5_counterexample_fixed_loop_bound :
    (erBlurPx 1 0 10 spike13 0 0).r = 0 ∧ 0 < (sepBlurHPx 10 spike13 0 0).r := by
  constructor
  · rw [erBlurPx, if_neg (by norm_num)]
    have hz : ∀ i ∈ Finset.Icc (-12 : ℤ) 12,
        gaussW 10 i * (sampleImg spike13 ((0 : ℤ) + 1 * i) ((0 : ℤ) + 0 * i)).r = 0 := by
      intro i hi
      rcases Finset.mem_Icc.mp hi with ⟨h1, h2⟩
      have hne : clampIdx 15 ((0 : ℤ) + 1 * i) ≠ 13 := by
        unfold clampIdx
        omega
      simp only [sampleImg, spike13]
      rw [if_neg hne]
      simp
    simp only [Nat.cast_zero, Px.smul_r, Px.sum_r]
    rw [Finset.sum_eq_zero hz, mul_zero]
  · have hceil : ⌈3 * max (10 : ℝ) 0.001⌉ = 30 := by
      rw [max_eq_left (by norm_num : (0.001 : ℝ) ≤ 10)]
      norm_num
    have hmem : (13 : ℤ) ∈ Finset.Icc (-30 : ℤ) 30 := by decide
    have hterm : ∀ i ∈ Finset.Icc (-30 : ℤ) 30,
        0 ≤ gaussW (max 10 0.001) i * (sampleImg spike13 ((0 : ℤ) + i) (0 : ℤ)).r := by
      intro i _
      have hw := gaussW_pos (max (10 : ℝ) 0.001) i
      apply mul_nonneg (le_of_lt hw)
      rw [zero_add]
      by_cases hc : clampIdx 15 i = 13 <;>
        simp [sampleImg, spike13, hc]
    have h13 : gaussW (max (10 : ℝ) 0.001) 13 * (sampleImg spike13 ((0 : ℤ) + 13) (0 : ℤ)).r
        = gaussW (max (10 : ℝ) 0.001) 13 := by
      have hc : clampIdx 15 (13 : ℤ) = 13 := by
        unfold clampIdx
        omega
      simp [sampleImg, spike13, hc]
    have hsum_pos : 0 < ∑ i in Finset.Icc (-30 : ℤ) 30,
        gaussW (max (10 : ℝ) 0.001) i * (sampleImg spike13 ((0 : ℤ) + i) (0 : ℤ)).r := by
      have hle := Finset.single_le_sum hterm hmem
      rw [h13] at hle
      exact lt_of_lt_of_le (gaussW_pos _ _) hle
    have hw_pos : 0 < ∑ i in Finset.Icc (-30 : ℤ) 30, gaussW (max (10 : ℝ) 0.001) i := by
      apply Finset.sum_pos (fun i _ => gaussW_pos _ i)
      exact ⟨0, by decide⟩
    rw [sepBlurHPx, hceil]
    simp only [Nat.cast_zero, Px.smul_r, Px.sum_r]
    exact mul_pos (one_div_pos.mpr hw_pos) hsum_pos

/-- **C5 (amended).** For every sigma at or above the schema minimum 0.1
(including values far beyond the UI range), `blur.ts`'s two passes
compute exactly the spec formula: radius `⌈3σ⌉` (derived from the
parameter), weights `exp(-(i²)/(2σ²))` normalized by their sum, applied
horizontally then vertically with edge-clamped sampling. The
`EffectRenderer.ts` `blurFragmentShader` cited alongside does NOT satisfy
this: its loop bound is the fixed constant 12 (see the counterexample). -/
theorem c5_blur_matches_spec_formula (sigma : ℝ) (hσ : 0.1 ≤ sigma) (img : Img) :
    gaussianBlurApply sigma img = specGaussianBlurImg sigma img := by
  have hm : max sigma 0.001 = sigma := max_eq_left (by linarith)
  unfold gaussianBlurApply specGaussianBlurImg sepBlurV sepBlurH
  simp only [sepBlurHPx, sepBlurVPx, specBlurHPx, specBlurVPx, hm]

/-- Witness for the amended C5 theorem at sigma = 1. -/
theorem c5_blur_witness :
    (0.1 : ℝ) ≤ 1 ∧ gaussianBlurApply 1 spike13 = specGaussianBlurImg 1 spike13 :=
  ⟨by norm_num, c5_blur_matches_spec_formula 1 (by norm_num) spike13⟩

/-! ## Multi-pass effects: bloom (`bloom.ts`), halation (`halation.ts`),
color grading (`colorGrading.ts`), and the pass-sequencing engine -/

/-- Modelled from the spec: the multi-pass engine of §4.3 — the PR #11
`EffectRenderer` that consumes `getPassConfig`/`bindOriginal` is not under
`src/` (only its pass configurations, its caller in `Compositor` and the
design documents are). Per §4.3 the engine snapshots the effect's input
before its passes run, each pass reads the previous pass's output, and a
pass with `bindOriginal` additionally reads the snapshot. A pass is
therefore a function of (snapshot, current buffer). -/
def runEffectPasses (passes : List (Img → Img → Img)) (input : Img) : Img :=
  passes.foldl (fun cur p => p input cur) input

/-- Modelled from the spec: §4.3 step 2 — enabled effects run in stack
order, each receiving the previous effect's output as its input. -/
def processStack (stack : List (List (Img → Img → Img))) (src : Img) : Img :=
  stack.foldl (fun cur passes => runEffectPasses passes cur) src

/-- `BLOOM_EXTRACT_FRAGMENT` (`bloom.ts`):
`contribution = smoothstep(θ, θ+0.1, luma)`,
`bright = color * contribution * strength`, `fragColor = color + bright` —
the output still CONTAINS the base image; it is not a highlights-only
buffer. -/
def bloomExtractPx (threshold strength : ℝ) (p : Px) : Px :=
  Px.add p
    (Px.smul (smoothstepR threshold (threshold + 0.1) (lumaR p.r p.g p.b) * strength) p)

/-- The three passes `bloom.ts` declares via `getPassConfig`: extract,
horizontal blur, vertical blur. There is NO composite pass and no
`bindOriginal` — no pass ever reads the snapshot. -/
def bloomPasses (threshold radius strength : ℝ) : List (Img → Img → Img) :=
  [fun _ cur => mapImg (bloomExtractPx threshold strength) cur,
   fun _ cur => sepBlurH radius cur,
   fun _ cur => sepBlurV radius cur]

/-- `HALATION_EXTRACT_FRAGMENT` (`halation.ts`):
`mask = clamp((y - θ) / max(1e-5, 1-θ), 0, 1)`, rgb scaled by the mask. -/
def halationExtractPx (threshold : ℝ) (p : Px) : Px :=
  ⟨p.r * clampR ((lumaR p.r p.g p.b - threshold) / max 0.00001 (1 - threshold)) 0 1,
   p.g * clampR ((lumaR p.r p.g p.b - threshold) / max 0.00001 (1 - threshold)) 0 1,
   p.b * clampR ((lumaR p.r p.g p.b - threshold) / max 0.00001 (1 - threshold)) 0 1,
   p.a⟩

/-- `HALATION_COMPOSITE_FRAGMENT` (`halation.ts`): warm tint
`(1.0, 0.58, 0.32)`, `clamp(original.rgb + blurred.rgb*warm*strength, 0, 1)`
with the original's alpha. -/
def halationCompositePx (strength : ℝ) (blurred original : Px) : Px :=
  ⟨clampR (original.r + blurred.r * 1.0 * strength) 0 1,
   clampR (original.g + blurred.g * 0.58 * strength) 0 1,
   clampR (original.b + blurred.b * 0.32 * strength) 0 1,
   original.a⟩

/-- The four passes `halation.ts` declares: extract, H blur, V blur, and
the composite pass carrying `bindOriginal: true` — it reads the blurred
buffer as `u_texture` and the effect's snapshot as `u_original`. -/
def halationPasses (threshold radius strength : ℝ) : List (Img → Img → Img) :=
  [fun _ cur => mapImg (halationExtractPx threshold) cur,
   fun _ cur => sepBlurH radius cur,
   fun _ cur => sepBlurV radius cur,
   fun original cur =>
     ⟨cur.width, cur.height, fun x y =>
       halationCompositePx strength (cur.pix x y) (original.pix x y)⟩]

/-- `COLOR_GRADING_FRAGMENT` (`colorGrading.ts`): brightness multiply,
contrast about 0.5, luma-preserving saturation, HSV hue shift (degrees /
360), vector lift/gamma/gain, final clamp; alpha preserved. -/
def colorGradePx (brightness contrast saturation hue : ℝ)
    (lift gamma gain : ℝ × ℝ × ℝ) (p : Px) : Px :=
  let c1r := p.r * brightness
  let c1g := p.g * brightness
  let c1b := p.b * brightness
  let c2r := (c1r - 0.5) * contrast + 0.5
  let c2g := (c1g - 0.5) * contrast + 0.5
  let c2b := (c1b - 0.5) * contrast + 0.5
  let l := lumaR c2r c2g c2b
  let c3r := mixR l c2r saturation
  let c3g := mixR l c2g saturation
  let c3b := mixR l c2b saturation
  let hsv := rgb2hsvGL c3r c3g c3b
  let h' := fractR (hsv.1 + hue / 360)
  let c4 := hsv2rgbCG h' hsv.2.1 hsv.2.2
  let c5r := gain.1 * (lift.1 * (1 - c4.1) + c4.1)
  let c5g := gain.2.1 * (lift.2.1 * (1 - c4.2.1) + c4.2.1)
  let c5b := gain.2.2 * (lift.2.2 * (1 - c4.2.2) + c4.2.2)
  ⟨clampR (max c5r 0 ^ (1 / max gamma.1 0.01)) 0 1,
   clampR (max c5g 0 ^ (1 / max gamma.2.1 0.01)) 0 1,
   clampR (max c5b 0 ^ (1 / max gamma.2.2 0.01)) 0 1,
   p.a⟩

/-- The single pass of `colorGrading.ts`. -/
def colorGradingPasses (brightness contrast saturation hue : ℝ)
    (lift gamma gain : ℝ × ℝ × ℝ) : List (Img → Img → Img) :=
  [fun _ cur => mapImg (colorGradePx brightness contrast saturation hue lift gamma gain) cur]

/-- **C6.** For every input image and every threshold/radius/strength
setting, halation's final pass computes
`clamp(original + blurred·(1.0, 0.58, 0.32)·strength, 0, 1)` per channel,
where `original` is the effect's pre-effect input (the §4.3 snapshot) and
`blurred` is the blurred extracted highlight; the alpha is the
original's. -/
theorem c6_halation_composites_on_preeffect_original
    (img : Img) (threshold radius strength : ℝ) (x y : ℕ) :
    (runEffectPasses (halationPasses threshold radius strength) img).pix x y =
      ⟨clampR ((img.pix x y).r +
          ((sepBlurV radius (sepBlurH radius (mapImg (halationExtractPx threshold) img))).pix x y).r
          * 1.0 * strength) 0 1,
       clampR ((img.pix x y).g +
          ((sepBlurV radius (sepBlurH radius (mapImg (halationExtractPx threshold) img))).pix x y).g
          * 0.58 * strength) 0 1,
       clampR ((img.pix x y).b +
          ((sepBlurV radius (sepBlurH radius (mapImg (halationExtractPx threshold) img))).pix x y).b
          * 0.32 * strength) 0 1,
       (img.pix x y).a⟩ := rfl

/-! ## Claim C1: bloom's missing composite pass -/

theorem blurMax_pos (sigma : ℝ) : 0 < max sigma 0.001 :=
  lt_of_lt_of_le (by norm_num) (le_max_right sigma 0.001)

theorem gaussSum_pos (s : ℝ) (a b : ℤ) (hab : a ≤ b) :
    0 < ∑ i in Finset.Icc a b, gaussW s i :=
  Finset.sum_pos (fun i _ => gaussW_pos s i) (Finset.nonempty_Icc.mpr hab)

theorem Px.sum_smul_const (s : Finset ℤ) (w : ℤ → ℝ) (c : Px) :
    ∑ i in s, Px.smul (w i) c = Px.smul (∑ i in s, w i) c := by
  refine Px.ext_fields ?_ ?_ ?_ ?_ <;>
    simp [Px.sum_r, Px.sum_g, Px.sum_b, Px.sum_a, ← Finset.sum_mul]

theorem Px.smul_one_div_smul_cancel (S : ℝ) (hS : S ≠ 0) (c : Px) :
    Px.smul (1 / S) (Px.smul S c) = c := by
  refine Px.ext_fields ?_ ?_ ?_ ?_ <;>
    (simp only [Px.smul_r, Px.smul_g, Px.smul_b, Px.smul_a]; field_simp)

/-- The vertical blur pass is the identity on one-row images: every sample
clamps back to the row itself and the normalized weights cancel. -/
theorem sepBlurVPx_height_one (sigma : ℝ) (img : Img) (hh : img.height = 1)
    (x : ℕ) (hx : x < img.width) : sepBlurVPx sigma img x 0 = img.pix x 0 := by
  unfold sepBlurVPx
  have hsamp : ∀ i ∈ Finset.Icc (-⌈3 * max sigma 0.001⌉) ⌈3 * max sigma 0.001⌉,
      Px.smul (gaussW (max sigma 0.001) i) (sampleImg img ((x : ℕ) : ℤ) (((0 : ℕ) : ℤ) + i))
        = Px.smul (gaussW (max sigma 0.001) i) (img.pix x 0) := by
    intro i _
    unfold sampleImg clampIdx
    rw [hh]
    congr 2
    · omega
    · omega
  rw [Finset.sum_congr rfl hsamp, Px.sum_smul_const]
  exact Px.smul_one_div_smul_cancel _
    (ne_of_gt (gaussSum_pos _ _ _ (by
      have h1 : (0 : ℤ) < ⌈3 * max sigma 0.001⌉ :=
        Int.ceil_pos.mpr (by positivity)
      omega))) _

/-- Modelled from the spec: §4.2 Bloom stage (1) — the extracted buffer
holds ONLY the weighted highlights: the pixel scaled by
`smoothstep(threshold, threshold+0.1, luma) * strength`. -/
def specBloomExtractPx (threshold strength : ℝ) (p : Px) : Px :=
  Px.smul (smoothstepR threshold (threshold + 0.1) (lumaR p.r p.g p.b) * strength) p

/-- Modelled from the spec: §4.2 Bloom stages (2)-(4) — blur the extracted
highlights by the radius (separable spec Gaussian), then composite: add
the blurred highlights back onto the PRE-EFFECT original image, clamped to
`[0,1]`. -/
def specBloomImg (threshold radius strength : ℝ) (img : Img) : Img :=
  ⟨img.width, img.height, fun x y =>
    ⟨clampR ((img.pix x y).r +
        ((specGaussianBlurImg radius (mapImg (specBloomExtractPx threshold strength) img)).pix x y).r) 0 1,
     clampR ((img.pix x y).g +
        ((specGaussianBlurImg radius (mapImg (specBloomExtractPx threshold strength) img)).pix x y).g) 0 1,
     clampR ((img.pix x y).b +
        ((specGaussianBlurImg radius (mapImg (specBloomExtractPx threshold strength) img)).pix x y).b) 0 1,
     (img.pix x y).a⟩⟩

/-- The 2×1 test image: a 0.2-gray pixel next to a black pixel. -/
def imgC1 : Img :=
  ⟨2, 1, fun x _ => if x = 0 then ⟨0.2, 0.2, 0.2, 1⟩ else ⟨0, 0, 0, 0⟩⟩

/-- `imgC1` after Color Grading with brightness 2 (neutral otherwise). -/
def gradedC1 : Img :=
  ⟨2, 1, fun x _ => if x = 0 then ⟨0.4, 0.4, 0.4, 1⟩ else ⟨0, 0, 0, 0⟩⟩

/-- Color grading at neutral contrast/saturation/hue/lift/gamma/gain maps
a gray pixel `v` to the gray `v·brightness` (for results inside `[0,1]`):
the HSV round trip is exact on grays because the saturation numerator is
exactly zero. -/
theorem colorGradePx_gray (br v al : ℝ) (h0 : 0 ≤ v * br) (h1 : v * br ≤ 1) :
    colorGradePx br 1 1 0 (0, 0, 0) (1, 1, 1) (1, 1, 1) ⟨v, v, v, al⟩ =
      ⟨v * br, v * br, v * br, al⟩ := by
  have hu : ∀ w : ℝ, (w - 0.5) * 1 + 0.5 = w := fun w => by ring
  unfold colorGradePx
  simp only [hu]
  have hluma : lumaR (v * br) (v * br) (v * br) = v * br := by
    unfold lumaR
    ring
  simp only [hluma]
  have hmix : mixR (v * br) (v * br) 1 = v * br := by
    unfold mixR
    ring
  simp only [hmix]
  have hhsv : rgb2hsvGL (v * br) (v * br) (v * br) = (0, 0, v * br) := by
    unfold rgb2hsvGL
    norm_num
  rw [hhsv]
  have hchan : ∀ k : ℝ, hsv2rgbChan (fractR (0 + 0 / 360)) 0 (v * br) k = v * br := by
    intro k
    unfold hsv2rgbChan mixR
    ring
  rw [hsv2rgbCG, hchan, hchan, hchan]
  have hlgg : (1 : ℝ) * (0 * (1 - v * br) + v * br) = v * br := by ring
  rw [hlgg]
  have hmaxg : max (1 : ℝ) 0.01 = 1 := by norm_num
  rw [hmaxg]
  have hmax0 : max (v * br) 0 = v * br := max_eq_left h0
  rw [hmax0]
  norm_num [Real.rpow_one, clampR, max_eq_left h0, min_eq_left h1]

/-- Color grading at brightness 2 (neutral otherwise) maps `imgC1` to
`gradedC1`: the gray 0.2 pixel to gray 0.4 and black to black. -/
theorem grade_imgC1 :
    runEffectPasses (colorGradingPasses 2 1 1 0 (0, 0, 0) (1, 1, 1) (1, 1, 1)) imgC1
      = gradedC1 := by
  show mapImg (colorGradePx 2 1 1 0 (0, 0, 0) (1, 1, 1) (1, 1, 1)) imgC1 = gradedC1
  unfold mapImg imgC1 gradedC1
  refine congrArg (Img.mk 2 1) ?_
  funext x y
  dsimp only
  by_cases hx : x = 0
  · rw [if_pos hx, if_pos hx, colorGradePx_gray 2 0.2 1 (by norm_num) (by norm_num)]
    norm_num
  · rw [if_neg hx, if_neg hx, colorGradePx_gray 2 0 0 (by norm_num) (by norm_num)]
    norm_num

/-- Bloom's extract pass at threshold 0.6 keeps `gradedC1` unchanged: both
pixels have luma at most 0.6, so the smoothstep contribution is zero and
`color + color*0*strength = color`. -/
theorem extract_gradedC1 : mapImg (bloomExtractPx 0.6 0.8) gradedC1 = gradedC1 := by
  unfold mapImg gradedC1
  refine congrArg (Img.mk 2 1) ?_
  funext x y
  dsimp only
  by_cases hx : x = 0
  · rw [if_pos hx]
    unfold bloomExtractPx Px.add Px.smul smoothstepR clampR lumaR
    norm_num
  · rw [if_neg hx]
    unfold bloomExtractPx Px.add Px.smul smoothstepR clampR lumaR
    norm_num

/-- A spec-side horizontal blur of an image whose red channel is
everywhere zero has zero red channel. -/
theorem specBlurHPx_r_zero (sigma : ℝ) (img : Img)
    (hz : ∀ a b : ℕ, (img.pix a b).r = 0) (x y : ℕ) :
    (specBlurHPx sigma img x y).r = 0 := by
  unfold specBlurHPx
  have h0 : ∑ i in Finset.Icc (-⌈3 * sigma⌉) ⌈3 * sigma⌉,
      gaussW sigma i * (sampleImg img ((x : ℤ) + i) (y : ℤ)).r = 0 := by
    apply Finset.sum_eq_zero
    intro i _
    simp only [sampleImg, hz, mul_zero]
  simp only [Px.smul_r, Px.sum_r, h0, mul_zero]

/-- Same for the vertical pass. -/
theorem specBlurVPx_r_zero (sigma : ℝ) (img : Img)
    (hz : ∀ a b : ℕ, (img.pix a b).r = 0) (x y : ℕ) :
    (specBlurVPx sigma img x y).r = 0 := by
  unfold specBlurVPx
  have h0 : ∑ i in Finset.Icc (-⌈3 * sigma⌉) ⌈3 * sigma⌉,
      gaussW sigma i * (sampleImg img (x : ℤ) ((y : ℤ) + i)).r = 0 := by
    apply Finset.sum_eq_zero
    intro i _
    simp only [sampleImg, hz, mul_zero]
  simp only [Px.smul_r, Px.sum_r, h0, mul_zero]

/-- The spec-side bloom extract of `gradedC1` is black everywhere in red:
both pixels have luma at most 0.6, the smoothstep gate is 0, and the
extracted buffer holds ONLY the weighted highlights (no base image). -/
theorem specExtract_gradedC1_r_zero :
    ∀ a b : ℕ, ((mapImg (specBloomExtractPx 0.6 0.8) gradedC1).pix a b).r = 0 := by
  intro a b
  show (specBloomExtractPx 0.6 0.8 (gradedC1.pix a b)).r = 0
  unfold gradedC1
  dsimp only
  by_cases ha : a = 0
  · rw [if_pos ha]
    unfold specBloomExtractPx Px.smul smoothstepR clampR lumaR
    norm_num
  · rw [if_neg ha]
    unfold specBloomExtractPx Px.smul smoothstepR clampR lumaR
    norm_num

/-- The spec-modelled bloom output at pixel (0,0) of the graded image: the
graded base 0.4 plus a zero blurred-highlight contribution, i.e. 0.4. -/
theorem specC1_eq :
    ((specBloomImg 0.6 8 0.8
        (runEffectPasses (colorGradingPasses 2 1 1 0 (0, 0, 0) (1, 1, 1) (1, 1, 1)) imgC1)).pix
      0 0).r = 0.4 := by
  rw [grade_imgC1]
  show clampR ((gradedC1.pix 0 0).r +
      ((specGaussianBlurImg 8 (mapImg (specBloomExtractPx 0.6 0.8) gradedC1)).pix 0 0).r) 0 1
    = 0.4
  have hblur : ((specGaussianBlurImg 8 (mapImg (specBloomExtractPx 0.6 0.8) gradedC1)).pix 0 0).r
      = 0 := by
    show (specBlurVPx 8
        ⟨(mapImg (specBloomExtractPx 0.6 0.8) gradedC1).width,
         (mapImg (specBloomExtractPx 0.6 0.8) gradedC1).height,
         fun x y => specBlurHPx 8 (mapImg (specBloomExtractPx 0.6 0.8) gradedC1) x y⟩ 0 0).r = 0
    apply specBlurVPx_r_zero
    intro a b
    exact specBlurHPx_r_zero 8 _ specExtract_gradedC1_r_zero a b
  rw [hblur]
  show clampR (0.4 + 0) 0 1 = 0.4
  unfold clampR
  norm_num

/-- What `bloom.ts`'s three passes actually produce at pixel (0,0) of the
graded image is STRICTLY BELOW the graded base value 0.4: with no
composite pass, the output is the blur of (base + highlights), and the
neighbouring black pixel drags the blurred value down. -/
theorem codeC1_lt :
    ((processStack [colorGradingPasses 2 1 1 0 (0, 0, 0) (1, 1, 1) (1, 1, 1),
        bloomPasses 0.6 8 0.8] imgC1).pix 0 0).r < 0.4 := by
  have hcode : processStack [colorGradingPasses 2 1 1 0 (0, 0, 0) (1, 1, 1) (1, 1, 1),
      bloomPasses 0.6 8 0.8] imgC1 = sepBlurV 8 (sepBlurH 8 gradedC1) := by
    show runEffectPasses (bloomPasses 0.6 8 0.8)
        (runEffectPasses (colorGradingPasses 2 1 1 0 (0, 0, 0) (1, 1, 1) (1, 1, 1)) imgC1)
      = sepBlurV 8 (sepBlurH 8 gradedC1)
    rw [grade_imgC1]
    show sepBlurV 8 (sepBlurH 8 (mapImg (bloomExtractPx 0.6 0.8) gradedC1))
      = sepBlurV 8 (sepBlurH 8 gradedC1)
    rw [extract_gradedC1]
  rw [hcode]
  have hv := sepBlurVPx_height_one 8 (sepBlurH 8 gradedC1) rfl 0
    (by show (0 : ℕ) < 2; norm_num)
  show (sepBlurVPx 8 (sepBlurH 8 gradedC1) 0 0).r < 0.4
  rw [hv]
  show (sepBlurHPx 8 gradedC1 0 0).r < 0.4
  have hceil : ⌈3 * max (8 : ℝ) 0.001⌉ = 24 := by
    rw [max_eq_left (by norm_num : (0.001 : ℝ) ≤ 8)]
    norm_num
  have hm : max (8 : ℝ) 0.001 = 8 := max_eq_left (by norm_num)
  rw [sepBlurHPx, hceil, hm]
  simp only [Nat.cast_zero, Px.smul_r, Px.sum_r]
  have hsplit : Finset.Icc (-24 : ℤ) 24 = Finset.Icc (-24) 0 ∪ Finset.Ioc 0 24 := by
    ext i
    simp only [Finset.mem_Icc, Finset.mem_union, Finset.mem_Ioc]
    omega
  have hdisj : Disjoint (Finset.Icc (-24 : ℤ) 0) (Finset.Ioc 0 24) := by
    rw [Finset.disjoint_left]
    intro i hi hi'
    rcases Finset.mem_Icc.mp hi with ⟨_, h2⟩
    rcases Finset.mem_Ioc.mp hi' with ⟨h3, _⟩
    omega
  rw [hsplit, Finset.sum_union hdisj, Finset.sum_union hdisj]
  have hA : ∀ i ∈ Finset.Icc (-24 : ℤ) 0,
      gaussW 8 i * (sampleImg gradedC1 (0 + i) 0).r = gaussW 8 i * 0.4 := by
    intro i hi
    rcases Finset.mem_Icc.mp hi with ⟨h1, h2⟩
    have hc : clampIdx 2 (0 + i) = 0 := by
      unfold clampIdx
      omega
    have hc2 : clampIdx 1 (0 : ℤ) = 0 := by
      unfold clampIdx
      omega
    simp only [sampleImg, gradedC1, hc, hc2]
    norm_num
  have hB : ∀ i ∈ Finset.Ioc (0 : ℤ) 24,
      gaussW 8 i * (sampleImg gradedC1 (0 + i) 0).r = 0 := by
    intro i hi
    rcases Finset.mem_Ioc.mp hi with ⟨h1, h2⟩
    have hc : clampIdx 2 (0 + i) = 1 := by
      unfold clampIdx
      omega
    have hc2 : clampIdx 1 (0 : ℤ) = 0 := by
      unfold clampIdx
      omega
    simp only [sampleImg, gradedC1, hc, hc2]
    norm_num
  rw [Finset.sum_congr rfl hA, Finset.sum_congr rfl hB, Finset.sum_const_zero, add_zero,
    ← Finset.sum_mul]
  have hS0 : 0 < ∑ i in Finset.Icc (-24 : ℤ) 0, gaussW 8 i :=
    Finset.sum_pos (fun i _ => gaussW_pos 8 i) ⟨0, by decide⟩
  have hS1 : 0 < ∑ i in Finset.Ioc (0 : ℤ) 24, gaussW 8 i :=
    Finset.sum_pos (fun i _ => gaussW_pos 8 i) ⟨1, by decide⟩
  rw [one_div_mul_eq_div, div_lt_iff₀ (by linarith)]
  linarith

/-- **C1.** On the claim's own test stack [Color Grading brightness=2,
Bloom (threshold 0.6, radius 8, strength 0.8)] over the 2×1 image
(0.2-gray, black), the spec-modelled composite (§4.2 stage 4: blurred
highlights added onto the pre-effect original) leaves pixel (0,0) at the
Color-Graded base value 0.4, but the passes `bloom.ts` actually declares —
extract WITH the base image kept in the buffer, blur, blur, and NO
composite — output strictly less than 0.4 there: the final image is a blur
of the graded base, not graded base plus additive bloom. The claim's
required behaviour fails on `bloom.ts`. -/
theorem c1_bloom_composites_on_preeffect_original :
    ((processStack [colorGradingPasses 2 1 1 0 (0, 0, 0) (1, 1, 1) (1, 1, 1),
        bloomPasses 0.6 8 0.8] imgC1).pix 0 0).r < 0.4 ∧
    ((specBloomImg 0.6 8 0.8
        (runEffectPasses (colorGradingPasses 2 1 1 0 (0, 0, 0) (1, 1, 1) (1, 1, 1)) imgC1)).pix
      0 0).r = 0.4 :=
  ⟨codeC1_lt, specC1_eq⟩

/-! ## Claim C9: color grading at neutral parameters -/

/-- `fract` is the identity on `[0, 1)`. -/
theorem fractR_self (x : ℝ) (h0 : 0 ≤ x) (h1 : x < 1) : fractR x = x :=
  Int.fract_eq_self.mpr ⟨h0, h1⟩

/-- `fract` on `[1, 2)` subtracts one. -/
theorem fractR_shift1 (x : ℝ) (h0 : 1 ≤ x) (h1 : x < 2) : fractR x = x - 1 := by
  have : fractR x = fractR (x - 1 + 1) := by norm_num
  rw [this]
  unfold fractR
  rw [Int.fract_add_one]
  exact Int.fract_eq_self.mpr ⟨by linarith, by linarith⟩

/-- `clamp` to `[0,1]` of a value at least 1 is 1. -/
theorem clampR_one (y : ℝ) (hy : 1 ≤ y) : clampR y 0 1 = 1 := by
  unfold clampR
  rw [max_eq_left (by linarith), min_eq_right hy]

/-- `clamp` to `[0,1]` of a nonpositive value is 0. -/
theorem clampR_zero (y : ℝ) (hy : y ≤ 0) : clampR y 0 1 = 0 := by
  unfold clampR
  rw [max_eq_right hy, min_eq_left (by norm_num)]

/-- `clamp` to `[0,1]` is the identity inside `[0,1]`. -/
theorem clampR_id (y : ℝ) (h0 : 0 ≤ y) (h1 : y ≤ 1) : clampR y 0 1 = y := by
  unfold clampR
  rw [max_eq_left h0, min_eq_left h1]

/-- Clamping into `[0,1]` never moves a value further from a target that
already lies in `[0,1]`. -/
theorem clampR_abs_sub_le (x t : ℝ) (h0 : 0 ≤ t) (h1 : t ≤ 1) :
    |clampR x 0 1 - t| ≤ |x - t| := by
  unfold clampR
  rcases le_total x 0 with hx | hx
  · rw [max_eq_right hx, min_eq_left (by norm_num : (0 : ℝ) ≤ 1),
      abs_of_nonpos (by linarith), abs_of_nonpos (by linarith)]
    linarith
  · rw [max_eq_left hx]
    rcases le_total x 1 with hx1 | hx1
    · rw [min_eq_left hx1]
    · rw [min_eq_right hx1, abs_of_nonneg (by linarith), abs_of_nonneg (by linarith)]
      linarith

/-- The hsv2rgb channel whose gating weight evaluates to 1 returns the HSV
value `m` exactly. -/
theorem hsvChanMax (m s : ℝ) : m * mixR 1 1 s = m := by
  unfold mixR
  ring

/-- The channel whose gating weight is 0 returns `m·(1−s)`; with the
shader's `s = (m−n)/(m+1e-10)` this is within 1e-6 of the true minimum
`n`. -/
theorem hsvChanMinBound (m n : ℝ) (hn : 0 ≤ n) (hnm : n ≤ m) (hm1 : m ≤ 1) :
    |m * mixR 1 0 ((m - n) / (m + 1e-10)) - n| ≤ 1e-6 := by
  have hden : (0 : ℝ) < m + 1e-10 := by linarith
  have hkey : m * mixR 1 0 ((m - n) / (m + 1e-10)) - n
      = 1e-10 * (m - n) / (m + 1e-10) := by
    unfold mixR
    field_simp
    ring
  rw [hkey, abs_of_nonneg (div_nonneg (mul_nonneg (by norm_num) (by linarith)) (by linarith)),
    div_le_iff₀ hden]
  nlinarith

/-- The mid channel: gating weight `6·(mid−n)/(6·(m−n)+1e-10)` recovers
the middle input channel to within 1e-6 despite the two shader epsilons. -/
theorem hsvChanMidBound (m mid n : ℝ) (hn : 0 ≤ n) (h1 : n ≤ mid) (h2 : mid ≤ m)
    (hm1 : m ≤ 1) :
    |m * mixR 1 (6 * ((mid - n) / (6 * (m - n) + 1e-10))) ((m - n) / (m + 1e-10)) - mid|
      ≤ 1e-6 := by
  have hdm : (0 : ℝ) < m + 1e-10 := by linarith
  have hdd : (0 : ℝ) < 6 * (m - n) + 1e-10 := by linarith
  have hD : (0 : ℝ) < (m + 1e-10) * (6 * (m - n) + 1e-10) := mul_pos hdm hdd
  have hkey : m * mixR 1 (6 * ((mid - n) / (6 * (m - n) + 1e-10))) ((m - n) / (m + 1e-10)) - mid
      = 1e-10 * ((m - mid) * m + 6 * (m - mid) * (m - n) + (m - mid) * 1e-10 - m * (m - n))
        / ((m + 1e-10) * (6 * (m - n) + 1e-10)) := by
    unfold mixR
    field_simp
    ring
  rw [hkey, abs_div, abs_of_pos hD, div_le_iff₀ hD, abs_le]
  constructor
  · nlinarith [mul_nonneg (sub_nonneg.mpr h1) (sub_nonneg.mpr h2),
      mul_nonneg (sub_nonneg.mpr (h1.trans h2)) (sub_nonneg.mpr h2),
      mul_nonneg hn (sub_nonneg.mpr h2)]
  · nlinarith [mul_nonneg (sub_nonneg.mpr h1) (sub_nonneg.mpr h2),
      mul_nonneg (sub_nonneg.mpr (h1.trans h2)) (sub_nonneg.mpr h2),
      mul_nonneg hn (sub_nonneg.mpr h2),
      mul_nonneg (sub_nonneg.mpr h1) (sub_nonneg.mpr hm1)]

/-- `rgb2hsv` in the sector `b ≤ g ≤ r`. -/
theorem rgb2hsvGL_caseA (r g b : ℝ) (hbg : b ≤ g) (hgr : g ≤ r) :
    rgb2hsvGL r g b
      = ((g - b) / (6 * (r - b) + 1e-10), (r - b) / (r + 1e-10), r) := by
  have hd : (0 : ℝ) < 6 * (r - b) + 1e-10 := by linarith
  unfold rgb2hsvGL
  simp only [if_pos hbg, if_pos hgr]
  rw [min_eq_right hbg, zero_add,
    abs_of_nonneg (div_nonneg (by linarith) (le_of_lt hd))]

/-- `rgb2hsv` in the sector `b ≤ r < g`. -/
theorem rgb2hsvGL_caseB1 (r g b : ℝ) (hbr : b ≤ r) (hrg : r < g) :
    rgb2hsvGL r g b
      = (1/3 - (r - b) / (6 * (g - b) + 1e-10), (g - b) / (g + 1e-10), g) := by
  have hbg : b ≤ g := le_trans hbr (le_of_lt hrg)
  have hd : (0 : ℝ) < 6 * (g - b) + 1e-10 := by linarith
  have he : (r - b) / (6 * (g - b) + 1e-10) ≤ 1/3 := by
    rw [div_le_iff₀ hd]
    linarith
  unfold rgb2hsvGL
  simp only [if_pos hbg, if_neg (not_le.mpr hrg)]
  rw [min_eq_right hbr, abs_of_nonpos (by linarith)]
  simp only [Prod.mk.injEq]
  ring_nf
  trivial

/-- `rgb2hsv` in the sector `r < b ≤ g`. -/
theorem rgb2hsvGL_caseB2 (r g b : ℝ) (hrb : r < b) (hbg : b ≤ g) :
    rgb2hsvGL r g b
      = (1/3 + (b - r) / (6 * (g - r) + 1e-10), (g - r) / (g + 1e-10), g) := by
  have hd : (0 : ℝ) < 6 * (g - r) + 1e-10 := by linarith
  have he : (r - b) / (6 * (g - r) + 1e-10) ≤ 0 :=
    div_nonpos_of_nonpos_of_nonneg (by linarith) (le_of_lt hd)
  unfold rgb2hsvGL
  simp only [if_pos hbg, if_neg (not_le.mpr (lt_of_lt_of_le hrb hbg))]
  rw [min_eq_left (le_of_lt hrb), abs_of_nonpos (by linarith)]
  simp only [Prod.mk.injEq]
  ring_nf
  trivial

/-- `rgb2hsv` in the sector `g < b ≤ r`. -/
theorem rgb2hsvGL_caseC (r g b : ℝ) (hgb : g < b) (hbr : b ≤ r) :
    rgb2hsvGL r g b
      = (1 - (b - g) / (6 * (r - g) + 1e-10), (r - g) / (r + 1e-10), r) := by
  have hd : (0 : ℝ) < 6 * (r - g) + 1e-10 := by linarith
  have he : (b - g) / (6 * (r - g) + 1e-10) ≤ 1 := by
    rw [div_le_one hd]
    linarith
  unfold rgb2hsvGL
  simp only [if_neg (not_le.mpr hgb), if_pos hbr]
  rw [min_eq_right (le_of_lt hgb), abs_of_nonpos (by linarith)]
  simp only [Prod.mk.injEq]
  ring_nf
  trivial

/-- `rgb2hsv` in the sector `g ≤ r < b`. -/
theorem rgb2hsvGL_caseD1 (r g b : ℝ) (hgr : g ≤ r) (hrb : r < b) :
    rgb2hsvGL r g b
      = (2/3 + (r - g) / (6 * (b - g) + 1e-10), (b - g) / (b + 1e-10), b) := by
  have hd : (0 : ℝ) < 6 * (b - g) + 1e-10 := by linarith
  have he : 0 ≤ (r - g) / (6 * (b - g) + 1e-10) :=
    div_nonneg (by linarith) (le_of_lt hd)
  unfold rgb2hsvGL
  simp only [if_neg (not_le.mpr (lt_of_le_of_lt hgr hrb)), if_neg (not_le.mpr hrb)]
  rw [min_eq_right hgr, abs_of_nonneg (by linarith)]

/-- `rgb2hsv` in the sector `r < g < b`. -/
theorem rgb2hsvGL_caseD2 (r g b : ℝ) (hrg : r < g) (hgb : g < b) :
    rgb2hsvGL r g b
      = (2/3 - (g - r) / (6 * (b - r) + 1e-10), (b - r) / (b + 1e-10), b) := by
  have hd : (0 : ℝ) < 6 * (b - r) + 1e-10 := by linarith
  have he : (g - r) / (6 * (b - r) + 1e-10) ≤ 1/3 := by
    rw [div_le_iff₀ hd]
    linarith
  have hneg : (r - g) / (6 * (b - r) + 1e-10) = -((g - r) / (6 * (b - r) + 1e-10)) := by
    ring
  unfold rgb2hsvGL
  simp only [if_neg (not_le.mpr hgb), if_neg (not_le.mpr (lt_trans hrg hgb))]
  rw [min_eq_left (le_of_lt hrg), abs_of_nonneg (by linarith [he, hneg])]
  simp only [Prod.mk.injEq]
  ring_nf
  trivial

set_option maxHeartbeats 1600000 in
/-- The `colorGrading.ts` HSV round trip (with the shader's 1e-10
epsilons) recovers every channel of an RGB triple in `[0,1]³` to within
1e-6. -/
theorem hsvRoundtripCG (r g b : ℝ) (hr0 : 0 ≤ r) (hr1 : r ≤ 1) (hg0 : 0 ≤ g) (hg1 : g ≤ 1)
    (hb0 : 0 ≤ b) (hb1 : b ≤ 1) :
    |(hsv2rgbCG (fractR (rgb2hsvGL r g b).1) (rgb2hsvGL r g b).2.1
        (rgb2hsvGL r g b).2.2).1 - r| ≤ 1e-6 ∧
    |(hsv2rgbCG (fractR (rgb2hsvGL r g b).1) (rgb2hsvGL r g b).2.1
        (rgb2hsvGL r g b).2.2).2.1 - g| ≤ 1e-6 ∧
    |(hsv2rgbCG (fractR (rgb2hsvGL r g b).1) (rgb2hsvGL r g b).2.1
        (rgb2hsvGL r g b).2.2).2.2 - b| ≤ 1e-6 := by
  by_cases hbg : b ≤ g
  · by_cases hgr : g ≤ r
    · -- sector b ≤ g ≤ r: red is max, green mid, blue min
      rw [rgb2hsvGL_caseA r g b hbg hgr]
      set e := (g - b) / (6 * (r - b) + 1e-10) with hedef
      have hd : (0 : ℝ) < 6 * (r - b) + 1e-10 := by linarith
      have he0 : 0 ≤ e := div_nonneg (by linarith) (le_of_lt hd)
      have he6 : e ≤ 1/6 := by
        rw [hedef, div_le_iff₀ hd]
        linarith
      have hfe : fractR e = e := fractR_self e he0 (by linarith)
      unfold hsv2rgbCG hsv2rgbChan
      dsimp only
      rw [hfe]
      refine ⟨?_, ?_, ?_⟩
      · have hf1 : fractR (e + 1) = e := by
          unfold fractR
          rw [Int.fract_add_one]
          exact hfe
        rw [hf1, abs_of_nonpos (by linarith : e * 6 - 3 ≤ 0), clampR_one _ (by linarith),
          hsvChanMax]
        rw [sub_self, abs_zero]
        norm_num
      · have hf2 : fractR (e + 2/3) = e + 2/3 :=
          fractR_self _ (by linarith) (by linarith)
        have hval : (e + 2/3) * 6 - 3 - 1 = 6 * e := by ring
        rw [hf2, abs_of_nonneg (by linarith : (0:ℝ) ≤ (e + 2/3) * 6 - 3), hval,
          clampR_id _ (by linarith) (by linarith), hedef]
        exact hsvChanMidBound r g b hb0 hbg hgr hr1
      · have hf3 : fractR (e + 1/3) = e + 1/3 :=
          fractR_self _ (by linarith) (by linarith)
        rw [hf3, abs_of_nonpos (by linarith : (e + 1/3) * 6 - 3 ≤ 0),
          clampR_zero _ (by linarith)]
        exact hsvChanMinBound r b hb0 (le_trans hbg hgr) hr1
    · have hrg : r < g := not_le.mp hgr
      by_cases hbr : b ≤ r
      · -- sector b ≤ r < g: green is max, red mid, blue min
        rw [rgb2hsvGL_caseB1 r g b hbr hrg]
        set e := (r - b) / (6 * (g - b) + 1e-10) with hedef
        have hd : (0 : ℝ) < 6 * (g - b) + 1e-10 := by linarith
        have he0 : 0 ≤ e := div_nonneg (by linarith) (le_of_lt hd)
        have he6 : e ≤ 1/6 := by
          rw [hedef, div_le_iff₀ hd]
          linarith
        have hfe : fractR (1/3 - e) = 1/3 - e :=
          fractR_self _ (by linarith) (by linarith)
        unfold hsv2rgbCG hsv2rgbChan
        dsimp only
        rw [hfe]
        refine ⟨?_, ?_, ?_⟩
        · have hf1 : fractR (1/3 - e + 1) = 1/3 - e := by
            unfold fractR
            rw [Int.fract_add_one]
            exact hfe
          have hval : -((1/3 - e) * 6 - 3) - 1 = 6 * e := by ring
          rw [hf1, abs_of_nonpos (by linarith : (1/3 - e) * 6 - 3 ≤ 0), hval,
            clampR_id _ (by linarith) (by linarith), hedef]
          exact hsvChanMidBound g r b hb0 hbr (le_of_lt hrg) hg1
        · rcases eq_or_lt_of_le he0 with heq | hepos
          · rw [← heq, show (1/3 - (0:ℝ) + 2/3) = 1 by norm_num]
            unfold fractR
            rw [Int.fract_one, show |(0:ℝ) * 6 - 3| - 1 = 2 by rw [abs_of_nonpos] <;> norm_num,
              clampR_one _ (by norm_num), hsvChanMax, sub_self, abs_zero]
            norm_num
          · have hf2 : fractR (1/3 - e + 2/3) = 1/3 - e + 2/3 :=
              fractR_self _ (by linarith) (by linarith)
            rw [hf2, abs_of_nonneg (by linarith : (0:ℝ) ≤ (1/3 - e + 2/3) * 6 - 3),
              clampR_one _ (by linarith), hsvChanMax, sub_self, abs_zero]
            norm_num
        · have hf3 : fractR (1/3 - e + 1/3) = 1/3 - e + 1/3 :=
            fractR_self _ (by linarith) (by linarith)
          rw [hf3, abs_of_nonneg (by linarith : (0:ℝ) ≤ (1/3 - e + 1/3) * 6 - 3),
            clampR_zero _ (by linarith)]
          exact hsvChanMinBound g b hb0 hbg hg1
      · have hrb : r < b := not_le.mp hbr
        -- sector r < b ≤ g: green is max, blue mid, red min
        rw [rgb2hsvGL_caseB2 r g b hrb hbg]
        set e := (b - r) / (6 * (g - r) + 1e-10) with hedef
        have hd : (0 : ℝ) < 6 * (g - r) + 1e-10 := by linarith
        have he0 : 0 ≤ e := div_nonneg (by linarith) (le_of_lt hd)
        have he6 : e ≤ 1/6 := by
          rw [hedef, div_le_iff₀ hd]
          linarith
        have hfe : fractR (1/3 + e) = 1/3 + e :=
          fractR_self _ (by linarith) (by linarith)
        unfold hsv2rgbCG hsv2rgbChan
        dsimp only
        rw [hfe]
        refine ⟨?_, ?_, ?_⟩
        · have hf1 : fractR (1/3 + e + 1) = 1/3 + e := by
            unfold fractR
            rw [Int.fract_add_one]
            exact hfe
          rw [hf1, abs_of_nonpos (by linarith : (1/3 + e) * 6 - 3 ≤ 0),
            clampR_zero _ (by linarith)]
          exact hsvChanMinBound g r hr0 (le_of_lt (lt_of_lt_of_le hrb hbg)) hg1
        · have hf2 : fractR (1/3 + e + 2/3) = e := by
            rw [show (1/3 : ℝ) + e + 2/3 = e + 1 by ring]
            unfold fractR
            rw [Int.fract_add_one]
            exact fractR_self e he0 (by linarith)
          have hval : -(e * 6 - 3) - 1 = 2 - 6 * e := by ring
          rw [hf2, abs_of_nonpos (by linarith : e * 6 - 3 ≤ 0), hval,
            clampR_one _ (by linarith), hsvChanMax, sub_self, abs_zero]
          norm_num
        · have hf3 : fractR (1/3 + e + 1/3) = 1/3 + e + 1/3 :=
            fractR_self _ (by linarith) (by linarith)
          have hval : (1/3 + e + 1/3) * 6 - 3 - 1 = 6 * e := by ring
          rw [hf3, abs_of_nonneg (by linarith : (0:ℝ) ≤ (1/3 + e + 1/3) * 6 - 3), hval,
            clampR_id _ (by linarith) (by linarith), hedef]
          exact hsvChanMidBound g b r hr0 (le_of_lt hrb) hbg hg1
  · have hgb : g < b := not_le.mp hbg
    by_cases hbr : b ≤ r
    · -- sector g < b ≤ r: red is max, blue mid, green min
      rw [rgb2hsvGL_caseC r g b hgb hbr]
      set e := (b - g) / (6 * (r - g) + 1e-10) with hedef
      have hd : (0 : ℝ) < 6 * (r - g) + 1e-10 := by linarith
      have hepos : 0 < e := div_pos (by linarith) hd
      have he6 : e ≤ 1/6 := by
        rw [hedef, div_le_iff₀ hd]
        linarith
      have hfe : fractR (1 - e) = 1 - e :=
        fractR_self _ (by linarith) (by linarith)
      unfold hsv2rgbCG hsv2rgbChan
      dsimp only
      rw [hfe]
      refine ⟨?_, ?_, ?_⟩
      · have hf1 : fractR (1 - e + 1) = 1 - e := by
          unfold fractR
          rw [Int.fract_add_one]
          exact hfe
        rw [hf1, abs_of_nonneg (by linarith : (0:ℝ) ≤ (1 - e) * 6 - 3),
          clampR_one _ (by linarith), hsvChanMax, sub_self, abs_zero]
        norm_num
      · have hf2 : fractR (1 - e + 2/3) = 1 - e + 2/3 - 1 :=
          fractR_shift1 _ (by linarith) (by linarith)
        rw [hf2, abs_of_nonneg (by linarith : (0:ℝ) ≤ (1 - e + 2/3 - 1) * 6 - 3),
          clampR_zero _ (by linarith)]
        exact hsvChanMinBound r g hg0 (le_trans (le_of_lt hgb) hbr) hr1
      · have hf3 : fractR (1 - e + 1/3) = 1 - e + 1/3 - 1 :=
          fractR_shift1 _ (by linarith) (by linarith)
        have hval : -((1 - e + 1/3 - 1) * 6 - 3) - 1 = 6 * e := by ring
        rw [hf3, abs_of_nonpos (by linarith : (1 - e + 1/3 - 1) * 6 - 3 ≤ 0), hval,
          clampR_id _ (by linarith) (by linarith), hedef]
        exact hsvChanMidBound r b g hg0 (le_of_lt hgb) hbr hr1
    · have hrb : r < b := not_le.mp hbr
      by_cases hgr2 : g ≤ r
      · -- sector g ≤ r < b: blue is max, red mid, green min
        rw [rgb2hsvGL_caseD1 r g b hgr2 hrb]
        set e := (r - g) / (6 * (b - g) + 1e-10) with hedef
        have hd : (0 : ℝ) < 6 * (b - g) + 1e-10 := by linarith
        have he0 : 0 ≤ e := div_nonneg (by linarith) (le_of_lt hd)
        have he6 : e ≤ 1/6 := by
          rw [hedef, div_le_iff₀ hd]
          linarith
        have hfe : fractR (2/3 + e) = 2/3 + e :=
          fractR_self _ (by linarith) (by linarith)
        unfold hsv2rgbCG hsv2rgbChan
        dsimp only
        rw [hfe]
        refine ⟨?_, ?_, ?_⟩
        · have hf1 : fractR (2/3 + e + 1) = 2/3 + e := by
            unfold fractR
            rw [Int.fract_add_one]
            exact hfe
          have hval : (2/3 + e) * 6 - 3 - 1 = 6 * e := by ring
          rw [hf1, abs_of_nonneg (by linarith : (0:ℝ) ≤ (2/3 + e) * 6 - 3), hval,
            clampR_id _ (by linarith) (by linarith), hedef]
          exact hsvChanMidBound b r g hg0 hgr2 (le_of_lt hrb) hb1
        · have hf2 : fractR (2/3 + e + 2/3) = 2/3 + e + 2/3 - 1 :=
            fractR_shift1 _ (by linarith) (by linarith)
          rw [hf2, abs_of_nonpos (by linarith : (2/3 + e + 2/3 - 1) * 6 - 3 ≤ 0),
            clampR_zero _ (by linarith)]
          exact hsvChanMinBound b g hg0 (le_of_lt (lt_of_le_of_lt hgr2 hrb)) hb1
        · have hf3 : fractR (2/3 + e + 1/3) = 2/3 + e + 1/3 - 1 :=
            fractR_shift1 _ (by linarith) (by linarith)
          rw [hf3, abs_of_nonpos (by linarith : (2/3 + e + 1/3 - 1) * 6 - 3 ≤ 0),
            clampR_one _ (by linarith), hsvChanMax, sub_self, abs_zero]
          norm_num
      · have hrg2 : r < g := not_le.mp hgr2
        -- sector r < g < b: blue is max, green mid, red min
        rw [rgb2hsvGL_caseD2 r g b hrg2 hgb]
        set e := (g - r) / (6 * (b - r) + 1e-10) with hedef
        have hd : (0 : ℝ) < 6 * (b - r) + 1e-10 := by linarith
        have hepos : 0 < e := div_pos (by linarith) hd
        have he6 : e ≤ 1/6 := by
          rw [hedef, div_le_iff₀ hd]
          linarith
        have hfe : fractR (2/3 - e) = 2/3 - e :=
          fractR_self _ (by linarith) (by linarith)
        unfold hsv2rgbCG hsv2rgbChan
        dsimp only
        rw [hfe]
        refine ⟨?_, ?_, ?_⟩
        · have hf1 : fractR (2/3 - e + 1) = 2/3 - e := by
            unfold fractR
            rw [Int.fract_add_one]
            exact hfe
          rw [hf1, abs_of_nonneg (by linarith : (0:ℝ) ≤ (2/3 - e) * 6 - 3),
            clampR_zero _ (by linarith)]
          exact hsvChanMinBound b r hr0 (le_of_lt (lt_trans hrg2 hgb)) hb1
        · have hf2 : fractR (2/3 - e + 2/3) = 2/3 - e + 2/3 - 1 :=
            fractR_shift1 _ (by linarith) (by linarith)
          have hval : -((2/3 - e + 2/3 - 1) * 6 - 3) - 1 = 6 * e := by ring
          rw [hf2, abs_of_nonpos (by linarith : (2/3 - e + 2/3 - 1) * 6 - 3 ≤ 0), hval,
            clampR_id _ (by linarith) (by linarith), hedef]
          exact hsvChanMidBound b g r hr0 (le_of_lt hrg2) (le_of_lt hgb) hb1
        · have hf3 : fractR (2/3 - e + 1/3) = 2/3 - e + 1/3 :=
            fractR_self _ (by linarith) (by linarith)
          rw [hf3, abs_of_nonneg (by linarith : (0:ℝ) ≤ (2/3 - e + 1/3) * 6 - 3),
            clampR_one _ (by linarith), hsvChanMax, sub_self, abs_zero]
          norm_num

/-- Clamping `max x 0` into `[0,1]` is the same as clamping `x`. -/
theorem clampR_max_zero (x : ℝ) : clampR (max x 0) 0 1 = clampR x 0 1 := by
  unfold clampR
  rw [max_assoc, max_self]

/-- **C9.** Color Grading (`colorGrading.ts`) with neutral parameters —
brightness 1, contrast 1, saturation 1, hue 0, lift (0,0,0), gamma
(1,1,1), gain (1,1,1) — returns every pixel with channels in `[0,1]`
unchanged up to 1e-6 per RGB channel (the only deviation is the shader's
two 1e-10 epsilons in the HSV round trip), and preserves alpha exactly. -/
theorem c9_neutral_grading_identity (p : Px)
    (hr0 : 0 ≤ p.r) (hr1 : p.r ≤ 1) (hg0 : 0 ≤ p.g) (hg1 : p.g ≤ 1)
    (hb0 : 0 ≤ p.b) (hb1 : p.b ≤ 1) :
    |(colorGradePx 1 1 1 0 (0, 0, 0) (1, 1, 1) (1, 1, 1) p).r - p.r| ≤ 1e-6 ∧
    |(colorGradePx 1 1 1 0 (0, 0, 0) (1, 1, 1) (1, 1, 1) p).g - p.g| ≤ 1e-6 ∧
    |(colorGradePx 1 1 1 0 (0, 0, 0) (1, 1, 1) (1, 1, 1) p).b - p.b| ≤ 1e-6 ∧
    (colorGradePx 1 1 1 0 (0, 0, 0) (1, 1, 1) (1, 1, 1) p).a = p.a := by
  have hR := hsvRoundtripCG p.r p.g p.b hr0 hr1 hg0 hg1 hb0 hb1
  have hu2 : ∀ w : ℝ, w - 0.5 + 0.5 = w := fun w => by ring
  have hmix1 : ∀ a x : ℝ, mixR a x 1 = x := fun a x => by
    unfold mixR
    ring
  have hlgg : ∀ x : ℝ, (1 : ℝ) * (0 * (1 - x) + x) = x := fun x => by ring
  have hgm : max (1 : ℝ) 0.01 = 1 := by norm_num
  unfold colorGradePx
  dsimp only
  simp only [mul_one, hu2, hmix1, hlgg, hgm, zero_div, add_zero, one_div_one,
    Real.rpow_one, clampR_max_zero]
  exact ⟨le_trans (clampR_abs_sub_le _ _ hr0 hr1) hR.1,
    le_trans (clampR_abs_sub_le _ _ hg0 hg1) hR.2.1,
    le_trans (clampR_abs_sub_le _ _ hb0 hb1) hR.2.2, trivial⟩

/-- Witness for C9 at the pixel (0.5, 0.25, 0, alpha 1). -/
theorem c9_neutral_grading_witness :
    |(colorGradePx 1 1 1 0 (0, 0, 0) (1, 1, 1) (1, 1, 1) ⟨0.5, 0.25, 0, 1⟩).r - 0.5| ≤ 1e-6 ∧
    (colorGradePx 1 1 1 0 (0, 0, 0) (1, 1, 1) (1, 1, 1) ⟨0.5, 0.25, 0, 1⟩).a = 1 :=
  ⟨(c9_neutral_grading_identity ⟨0.5, 0.25, 0, 1⟩ (by norm_num) (by norm_num) (by norm_num)
      (by norm_num) (by norm_num) (by norm_num)).1,
   (c9_neutral_grading_identity ⟨0.5, 0.25, 0, 1⟩ (by norm_num) (by norm_num) (by norm_num)
      (by norm_num) (by norm_num) (by norm_num)).2.2.2⟩

/-! ## Claim C7: iridescence -/

/-- Luma of the edge-clamped sample at integer coordinates. -/
def lumAt (img : Img) (i j : ℤ) : ℝ :=
  lumaR (sampleImg img i j).r (sampleImg img i j).g (sampleImg img i j).b

/-- The edge-activity map `E` of `IRIDESCENCE_FRAGMENT`
(`iridescence.ts`): absolute CENTRAL luma differences of the clamped
one-texel neighbours, `clamp(length(vec2(gx,gy)) * 6, 0, 1)` — a fixed
×6 scale; no percentile normalization and no blur. -/
def iridEdgeE (img : Img) (x y : ℕ) : ℝ :=
  let gx := |lumAt img ((x : ℤ) + 1) (y : ℤ) - lumAt img ((x : ℤ) - 1) (y : ℤ)|
  let gy := |lumAt img (x : ℤ) ((y : ℤ) + 1) - lumAt img (x : ℤ) ((y : ℤ) - 1)|
  clampR (Real.sqrt (gx * gx + gy * gy) * 6) 0 1

/-- Modelled from the spec: §8.2.1 — `gx`, `gy` by one-sided finite
differences with edge replication, raw map `E = sqrt(gx² + gy²)`. -/
def specEdgeRaw (img : Img) (x y : ℕ) : ℝ :=
  let gx := |lumAt img ((x : ℤ) + 1) (y : ℤ) - lumAt img (x : ℤ) (y : ℤ)|
  let gy := |lumAt img (x : ℤ) ((y : ℤ) + 1) - lumAt img (x : ℤ) (y : ℤ)|
  Real.sqrt (gx * gx + gy * gy)

open scoped Classical in
/-- How many entries of `l` are at most `v`. -/
def countLE : List ℝ → ℝ → ℕ
  | [], _ => 0
  | a :: t, v => (if a ≤ v then 1 else 0) + countLE t v

/-- Modelled from the spec: the 98th percentile (nearest-rank: the
smallest listed value whose rank reaches 0.98·n). -/
def p98 (l : List ℝ) : ℝ :=
  sInf {v | v ∈ l ∧ 0.98 * (l.length : ℝ) ≤ (countLE l v : ℝ)}

/-- All raw edge-map values of an image, row-major. -/
def specEdgeList (img : Img) : List ℝ :=
  (List.range img.width).flatMap fun x =>
    (List.range img.height).map fun y => specEdgeRaw img x y

/-- Modelled from the spec: §8.2.1 normalization
`E ← clip(E / P98(E), 0, 1)`, the map being zero when `P98 ≤ 1e-6`. -/
def specEdgeNorm (img : Img) (x y : ℕ) : ℝ :=
  if p98 (specEdgeList img) ≤ 1e-6 then 0
  else clampR (specEdgeRaw img x y / p98 (specEdgeList img)) 0 1

/-- Modelled from the spec: a grayscale separable Gaussian blur pass
(horizontal) over a scalar field, as §4.2's blur. -/
def grayBlurH (sigma : ℝ) (w : ℕ) (f : ℕ → ℕ → ℝ) (x y : ℕ) : ℝ :=
  (1 / ∑ i in Finset.Icc (-⌈3 * sigma⌉) ⌈3 * sigma⌉, gaussW sigma i) *
    ∑ i in Finset.Icc (-⌈3 * sigma⌉) ⌈3 * sigma⌉,
      gaussW sigma i * f (clampIdx w ((x : ℤ) + i)) y

/-- Modelled from the spec: the vertical grayscale blur pass. -/
def grayBlurV (sigma : ℝ) (h : ℕ) (f : ℕ → ℕ → ℝ) (x y : ℕ) : ℝ :=
  (1 / ∑ i in Finset.Icc (-⌈3 * sigma⌉) ⌈3 * sigma⌉, gaussW sigma i) *
    ∑ i in Finset.Icc (-⌈3 * sigma⌉) ⌈3 * sigma⌉,
      gaussW sigma i * f x (clampIdx h ((y : ℤ) + i))

/-- Modelled from the spec: §8.2.1 complete —
`E ← GaussianBlurGray(normalize_map(E), 0.35·softness)`. -/
def specEdgeMap (img : Img) (softness : ℝ) (x y : ℕ) : ℝ :=
  grayBlurV (0.35 * softness) img.height
    (fun a b => grayBlurH (0.35 * softness) img.width (specEdgeNorm img) a b) x y

/-- A 3×1 gray ramp: values 0, 0.05, 0.10. -/
def ramp3 : Img :=
  ⟨3, 1, fun x _ =>
    if x = 0 then ⟨0, 0, 0, 1⟩
    else if x = 1 then ⟨0.05, 0.05, 0.05, 1⟩
    else ⟨0.1, 0.1, 0.1, 1⟩⟩

/-- Luma of the gray value `v` is `v`: the Rec.709 weights sum to 1. -/
theorem lumaR_gray (v : ℝ) : lumaR v v v = v := by
  unfold lumaR
  ring

/-- The raw spec edge map of `ramp3`. -/
theorem specEdgeRaw_ramp3_0 : specEdgeRaw ramp3 0 0 = 0.05 := by
  have hcA : clampIdx 3 ((0 : ℤ) + 1) = 1 := by
    unfold clampIdx
    omega
  have hcB : clampIdx 3 (0 : ℤ) = 0 := by
    unfold clampIdx
    omega
  have hcC : clampIdx 1 (0 : ℤ) = 0 := by
    unfold clampIdx
    omega
  have hcD : clampIdx 1 ((0 : ℤ) + 1) = 0 := by
    unfold clampIdx
    omega
  unfold specEdgeRaw lumAt sampleImg ramp3
  dsimp only
  simp only [Nat.cast_zero, hcA, hcB, hcC, hcD]
  norm_num [lumaR_gray]
  rw [show (400 : ℝ) = 20 ^ 2 by norm_num, Real.sqrt_sq (by norm_num : (0:ℝ) ≤ 20)]
  norm_num

/-- Raw spec edge value at pixel 1 of `ramp3`. -/
theorem specEdgeRaw_ramp3_1 : specEdgeRaw ramp3 1 0 = 0.05 := by
  have hcA : clampIdx 3 ((1 : ℤ) + 1) = 2 := by
    unfold clampIdx
    omega
  have hcB : clampIdx 3 (1 : ℤ) = 1 := by
    unfold clampIdx
    omega
  have hcC : clampIdx 1 (0 : ℤ) = 0 := by
    unfold clampIdx
    omega
  have hcD : clampIdx 1 ((0 : ℤ) + 1) = 0 := by
    unfold clampIdx
    omega
  unfold specEdgeRaw lumAt sampleImg ramp3
  dsimp only
  simp only [Nat.cast_zero, Nat.cast_one, hcA, hcB, hcC, hcD]
  norm_num [lumaR_gray]
  rw [show (400 : ℝ) = 20 ^ 2 by norm_num, Real.sqrt_sq (by norm_num : (0:ℝ) ≤ 20)]
  norm_num

/-- Raw spec edge value at pixel 2 of `ramp3` (right edge, replication). -/
theorem specEdgeRaw_ramp3_2 : specEdgeRaw ramp3 2 0 = 0 := by
  have hcA : clampIdx 3 ((2 : ℤ) + 1) = 2 := by
    unfold clampIdx
    omega
  have hcB : clampIdx 3 (2 : ℤ) = 2 := by
    unfold clampIdx
    omega
  have hcC : clampIdx 1 (0 : ℤ) = 0 := by
    unfold clampIdx
    omega
  have hcD : clampIdx 1 ((0 : ℤ) + 1) = 0 := by
    unfold clampIdx
    omega
  unfold specEdgeRaw lumAt sampleImg ramp3
  dsimp only
  simp only [Nat.cast_zero, Nat.cast_ofNat, hcA, hcB, hcC, hcD]
  norm_num [lumaR_gray, Real.sqrt_zero]

/-- The full raw edge list of `ramp3`. -/
theorem specEdgeList_ramp3 : specEdgeList ramp3 = [0.05, 0.05, 0] := by
  show ((List.range 3).flatMap fun x => (List.range 1).map fun y => specEdgeRaw ramp3 x y)
    = [0.05, 0.05, 0]
  rw [show List.range 3 = [0, 1, 2] from rfl, show List.range 1 = [0] from rfl]
  simp only [List.flatMap_cons, List.flatMap_nil, List.map_cons, List.map_nil,
    List.append_nil, List.cons_append, List.nil_append, List.singleton_append]
  rw [specEdgeRaw_ramp3_0, specEdgeRaw_ramp3_1, specEdgeRaw_ramp3_2]

/-- The 98th percentile of the ramp's raw edge map is 0.05: with three
samples the rank threshold is 2.94, reached only by the value 0.05. -/
theorem p98_ramp3 : p98 [0.05, 0.05, 0] = 0.05 := by
  have hc0 : countLE [0.05, 0.05, 0] (0 : ℝ) = 1 := by
    simp only [countLE]
    norm_num
  have hc5 : countLE [0.05, 0.05, 0] (0.05 : ℝ) = 3 := by
    simp only [countLE]
    norm_num
  have hset : {v : ℝ | v ∈ [(0.05 : ℝ), 0.05, 0] ∧
      0.98 * (([(0.05 : ℝ), 0.05, 0].length : ℕ) : ℝ) ≤ (countLE [(0.05 : ℝ), 0.05, 0] v : ℝ)}
      = {(0.05 : ℝ)} := by
    ext w
    simp only [Set.mem_setOf_eq, List.mem_cons, List.not_mem_nil, or_false,
      List.length_cons, List.length_nil, Set.mem_singleton_iff]
    constructor
    · rintro ⟨hmem, hcnt⟩
      rcases hmem with h | h | h
      · exact h
      · exact h
      · subst h
        rw [hc0] at hcnt
        norm_num at hcnt
    · rintro rfl
      refine ⟨Or.inl rfl, ?_⟩
      rw [hc5]
      norm_num
  unfold p98
  rw [hset, csInf_singleton]

/-- The shader's edge value at pixel (0,0) of `ramp3` is 0.3: the fixed
×6 scaling of the raw gradient 0.05, with no percentile normalization. -/
theorem iridEdgeE_ramp3_0 : iridEdgeE ramp3 0 0 = 0.3 := by
  have hcA : clampIdx 3 ((0 : ℤ) + 1) = 1 := by
    unfold clampIdx
    omega
  have hcB : clampIdx 3 ((0 : ℤ) - 1) = 0 := by
    unfold clampIdx
    omega
  have hcC : clampIdx 1 (0 : ℤ) = 0 := by
    unfold clampIdx
    omega
  have hcD : clampIdx 1 ((0 : ℤ) + 1) = 0 := by
    unfold clampIdx
    omega
  have hcE : clampIdx 1 ((0 : ℤ) - 1) = 0 := by
    unfold clampIdx
    omega
  have hcF : clampIdx 3 (0 : ℤ) = 0 := by
    unfold clampIdx
    omega
  unfold iridEdgeE lumAt sampleImg ramp3
  dsimp only
  simp only [Nat.cast_zero, hcA, hcB, hcC, hcD, hcE, hcF]
  norm_num [lumaR_gray]
  rw [show (400 : ℝ) = 20 ^ 2 by norm_num, Real.sqrt_sq (by norm_num : (0:ℝ) ≤ 20)]
  unfold clampR
  norm_num

/-- The spec-modelled normalized edge map of `ramp3` at (0,0): the raw
gradient 0.05 divided by its own 98th percentile 0.05 is 1. -/
theorem specEdgeNorm_ramp3_0 : specEdgeNorm ramp3 0 0 = 1 := by
  unfold specEdgeNorm
  rw [specEdgeList_ramp3, p98_ramp3, if_neg (by norm_num : ¬ (0.05 : ℝ) ≤ 1e-6),
    specEdgeRaw_ramp3_0]
  unfold clampR
  norm_num

/-- At sigma 0 the Gaussian weight at offset 0 is `exp 0 = 1` (Lean's
`0/0 = 0` matches the limiting identity kernel). -/
theorem gaussW_sigma_zero : gaussW (0.35 * 0) 0 = 1 := by
  unfold gaussW
  norm_num

/-- With softness 0 the spec blur of the edge map is the identity, so the
spec-modelled edge map of `ramp3` at (0,0) is the normalized value 1. -/
theorem specEdgeMap_ramp3_0 : specEdgeMap ramp3 0 0 0 = 1 := by
  have hceil0 : ⌈3 * ((0.35 : ℝ) * 0)⌉ = 0 := by
    rw [show (3 : ℝ) * (0.35 * 0) = 0 by norm_num]
    exact Int.ceil_zero
  have hcx : clampIdx 3 ((0 : ℤ) + 0) = 0 := by
    unfold clampIdx
    omega
  have hcy : clampIdx 1 ((0 : ℤ) + 0) = 0 := by
    unfold clampIdx
    omega
  have hw : ramp3.width = 3 := rfl
  have hh : ramp3.height = 1 := rfl
  unfold specEdgeMap grayBlurV grayBlurH
  rw [hceil0]
  simp only [Nat.cast_zero, neg_zero, Finset.Icc_self, Finset.sum_singleton,
    Int.cast_zero, gaussW_sigma_zero, hw, hh, hcx, hcy, one_mul]
  rw [specEdgeNorm_ramp3_0]
  norm_num

/-- **C7 (counterexample).** On the 3×1 gray ramp (0, 0.05, 0.10) the
claim requires the edge-activity value at pixel (0,0) to be the gradient
magnitude normalized by the map's 98th percentile and then blurred: with
softness 0 that is `clip(0.05 / 0.05, 0, 1) = 1`. The shader instead
computes `clamp(0.05·6, 0, 1) = 0.3` — a fixed ×6 scale with no
percentile normalization (and it blurs neither E nor W nor M). -/
theorem c7_counterexample_edge_map :
    iridEdgeE ramp3 0 0 = 0.3 ∧ specEdgeMap ramp3 0 0 0 = 1 :=
  ⟨iridEdgeE_ramp3_0, specEdgeMap_ramp3_0⟩

/-- The per-pixel scalar tail of `IRIDESCENCE_FRAGMENT` after the edge
value `E`, luma `Y`, pixel HSV `hsv`, ambient HSV `ahsv` and dither `D`
are in hand: gates, reaction weight, hue remap with sinusoidal wobbles,
dithered hue/saturation, saturation drive, value lift and blend mask.
Returns `(H', S', V', M)`. -/
def iridChain (amount hueShift edgeBias satBoost lumaCenter lumaRange : ℝ)
    (E Y D : ℝ) (hsv ahsv : ℝ × ℝ × ℝ) : ℝ × ℝ × ℝ × ℝ :=
  let lumRange := max 0.05 lumaRange
  let Gmid := clampR (1 - |Y - lumaCenter| / lumRange) 0 1
  let Ghi := clampR ((Y - 0.42) / 0.35) 0 1 * clampR ((0.995 - Y) / 0.18) 0 1
  let Gl := max Gmid (0.9 * Ghi)
  let Gw := clampR ((0.995 - Y) / 0.20) 0 1
  let S0 := clampR (max hsv.2.1 (0.9 * ahsv.2.1)) 0 1
  let Gs := clampR (0.15 + 1.05 * S0) 0 1
  let Nb := clampR ((0.28 - hsv.2.1) / 0.28) 0 1
  let R := clampR (mixR Gs E (clampR edgeBias 0 1) + Nb * (0.25 + 0.45 * E)) 0 1
  let W := clampR (R * Gl * Gw) 0 1
  let Ef := clampR amount 0 1 * W
  let Nh := clampR ((0.24 - hsv.2.1) / 0.24) 0 1
  let Hs := fractR (mixR hsv.1 ahsv.1 Nh)
  let phi := fractR (Hs + 0.18 * Y + 0.22 * E)
  let Ht := fractR (Hs + hueShift
    + 0.14 * Real.sin (6.28318530718 * (1.8 * phi + 0.65 * E))
    + 0.04 * Real.sin (6.28318530718 * (4.2 * phi + 1.2 * Y)))
  let dH := fractR (Ht - Hs + 0.5) - 0.5
  let Hp := fractR (Hs + dH * Ef + D * (0.0010 + 0.0022 * Ef))
  let Q := 1 - Real.exp (-clampR (1.1 * satBoost * Ef) 0 12)
  let Sp := clampR (clampR (S0 + Q * (0.18 + 0.68 * (1 - S0))) 0 1 + D * (0.012 * Ef)) 0 1
  let Vp := clampR (hsv.2.2 * (1 + 0.07 * Ef) + 0.014 * Ef) 0 1
  let M := clampR (Ef * (0.55 + 0.45 * (1 - hsv.2.1))) 0 1
  (Hp, Sp, Vp, M)

/-- Modelled from the spec: the per-pixel chain of appendix §8.2.3–8.2.4
on the same inputs, written exactly as the appendix states it (`mod 1`
taken as `fract`; `R = βE + (1−β)Gs`; `Hs = (1−Nh)H + Nh·Ha mod 1`). -/
def iridChainAppendix (amount hueShift edgeBias satBoost lumaCenter lumaRange : ℝ)
    (E Y D : ℝ) (hsv ahsv : ℝ × ℝ × ℝ) : ℝ × ℝ × ℝ × ℝ :=
  let r' := max 0.05 lumaRange
  let Gmid := clampR (1 - |Y - lumaCenter| / r') 0 1
  let Ghi := clampR ((Y - 0.42) / 0.35) 0 1 * clampR ((0.995 - Y) / 0.18) 0 1
  let Gl := max Gmid (0.9 * Ghi)
  let Gw := clampR ((0.995 - Y) / 0.20) 0 1
  let S0 := clampR (max hsv.2.1 (0.9 * ahsv.2.1)) 0 1
  let Gs := clampR (0.15 + 1.05 * S0) 0 1
  let Nb := clampR ((0.28 - hsv.2.1) / 0.28) 0 1
  let beta := clampR edgeBias 0 1
  let R := clampR (beta * E + (1 - beta) * Gs + Nb * (0.25 + 0.45 * E)) 0 1
  let W := clampR (R * Gl * Gw) 0 1
  let Ef := clampR amount 0 1 * W
  let Nh := clampR ((0.24 - hsv.2.1) / 0.24) 0 1
  let Hs := fractR ((1 - Nh) * hsv.1 + Nh * ahsv.1)
  let phi := fractR (Hs + 0.18 * Y + 0.22 * E)
  let Ht := fractR (Hs + hueShift
    + 0.14 * Real.sin (6.28318530718 * (1.8 * phi + 0.65 * E))
    + 0.04 * Real.sin (6.28318530718 * (4.2 * phi + 1.2 * Y)))
  let dH := fractR (Ht - Hs + 0.5) - 0.5
  let Hp := fractR (Hs + dH * Ef + D * (0.0010 + 0.0022 * Ef))
  let Q := 1 - Real.exp (-clampR (1.1 * satBoost * Ef) 0 12)
  let Sp := clampR (clampR (S0 + Q * (0.18 + 0.68 * (1 - S0))) 0 1 + D * (0.012 * Ef)) 0 1
  let Vp := clampR (hsv.2.2 * (1 + 0.07 * Ef) + 0.014 * Ef) 0 1
  let M := clampR (Ef * (0.55 + 0.45 * (1 - hsv.2.1))) 0 1
  (Hp, Sp, Vp, M)

set_option maxHeartbeats 1600000 in
/-- **C7 (amended).** Given the same edge value, luma, pixel/ambient HSV
and dither inputs, every subsequent per-pixel step of the shader matches
the appendix formula with its exact constants. The claim's edge-map
construction itself (98th-percentile normalization, blurring of E, W and
M, one-sided differences, Gaussian ambient) is NOT implemented — see the
counterexample. -/
theorem c7_iridescence_chain_matches_appendix
    (amount hueShift edgeBias satBoost lumaCenter lumaRange E Y D : ℝ)
    (hsv ahsv : ℝ × ℝ × ℝ) :
    iridChain amount hueShift edgeBias satBoost lumaCenter lumaRange E Y D hsv ahsv
      = iridChainAppendix amount hueShift edgeBias satBoost lumaCenter lumaRange E Y D
          hsv ahsv := by
  have hmixT : ∀ a b t : ℝ, mixR a b t = t * b + (1 - t) * a := fun a b t => by
    unfold mixR
    ring
  have hHs : ∀ q w n : ℝ, fractR (n * w + (1 - n) * q) = fractR ((1 - n) * q + n * w) :=
    fun q w n => by rw [add_comm]
  unfold iridChain iridChainAppendix
  simp only [hmixT, hHs]
